import Mathlib

/-!
Shallow embedding of benchmark.py, a benchmark of reading many small
numpy arrays from disk under four on-disk layouts (flat, two_level,
four_level, memmap), together with proofs of the specified properties.

Modelling conventions:
* float64/float32 values are modelled as rationals; the float32 cast
  performed by astype(np.float32) is an explicit cast function carried
  in the environment and applied elementwise, so casting is preserved
  structurally without modelling IEEE bit layouts.
* the numpy global generator after np.random.seed(515) is modelled as
  an environment stream: u k is the k-th uniform double drawn after
  seeding (np.random.random consumes them in order), and rb k b is the
  k-th bounded draw (the value below b that np.random.shuffle uses for
  its k-th Fisher-Yates step after seeding).
* uuid.uuid4().hex is modelled as an environment stream of strings.
* the filesystem is a map from path strings to stored .npy values; a
  directory set records the directories made by Path.mkdir.
-/

namespace SFB

/-- Failure modes of benchmark.py, named after the spec error taxonomy
where a spec name exists; IndexError/TypeError/ValueError name the
Python exceptions raised on the corresponding paths. CountMismatch is
the AssertionError of the assert in create_filelist, ShapeMismatch the
ValueError numpy raises when a memmap file is too small for the
requested shape, InvalidArgument the error raised when the COUNT or
size argument cannot be evaluated. -/
inductive Err where
  | CountMismatch
  | MissingArtifact
  | ShapeMismatch
  | InvalidArgument
  | IndexError
  | TypeError
  | ValueError
deriving DecidableEq, Repr

/-- A value stored in a .npy artifact: an array of strings (the
identifier list written by create_filelist) or an array of floats. -/
inductive NpyVal where
  | strs (l : List String)
  | floats (l : List Rat)
deriving DecidableEq, Repr

/-- First dimension of the stored array, as read by .shape[0]. -/
def npShape0 : NpyVal → Nat
  | .strs l => l.length
  | .floats l => l.length

/-- The filesystem: a map from path to stored value. -/
def FS : Type := String → Option NpyVal

/-- Program state: the set of directories made so far (listed with
possible repetitions; mkdir with exist_ok=True makes repetitions
harmless) and the filesystem contents. -/
structure St where
  dirs : List String
  fs : FS

/-- np.save: (over)write the value at a path. -/
def fsStore (fs : FS) (p : String) (v : NpyVal) : FS :=
  fun q => if q = p then some v else fs q

/-- Path(d).mkdir(exist_ok=True): register a directory. -/
def mkdir (st : St) (d : String) : St :=
  { st with dirs := d :: st.dirs }

/-- Environment of the run: the seeded random streams, the float32
cast, and the uuid4 stream (see the module docstring). -/
structure Env where
  u : Nat → Rat
  rb : Nat → Nat → Nat
  f32 : Rat → Rat
  uuid : Nat → String

/-- The defining property of np.random.random draws: each uniform
double lies in the half-open unit interval. -/
def UnitStream (u : Nat → Rat) : Prop := ∀ k, 0 ≤ u k ∧ u k < 1

/-- Python int() applied to a float: truncation toward zero. -/
def pyTrunc (q : Rat) : Int := if 0 ≤ q then ⌊q⌋ else -⌊-q⌋

/-- Length drawn for one variable-length record when the next unseen
draw index is k: int(10 + np.random.random() * 5 * size), from
create_files_flat / create_files_two_level / create_files_four_level. -/
def recLen (e : Env) (size k : Nat) : Nat :=
  (pyTrunc (10 + e.u k * 5 * size)).toNat

/-- Content of one variable-length record when the draw index at the
start of the record is k: the length draw consumes index k, then
np.random.random(length).astype(np.float32) consumes the next length
draws, cast elementwise to float32. -/
def recContent (e : Env) (size k : Nat) : List Rat :=
  (List.range (recLen e size k)).map (fun j => e.f32 (e.u (k + 1 + j)))

/-! ### Storage locations (layout mappings) -/

/-- Python s[-3:]: the last three characters, or the whole string when
it is shorter than three characters. -/
def pyLast3 (s : String) : String := String.mk (s.data.drop (s.data.length - 3))

/-- Python s[-k] for k ≥ 1: the k-th character from the end, or an
IndexError (none) when the string is shorter than k. -/
def pyNegChar (s : String) (k : Nat) : Option Char :=
  if 1 ≤ k ∧ k ≤ s.data.length then s.data[s.data.length - k]? else none

/-- Destination written by create_files_flat (line 42). -/
def flatCreatePath (name : String) : String := "cache/flat/" ++ name ++ ".npy"

/-- Location read by test_flat (line 108). -/
def flatTestPath (name : String) : String := "cache/flat/" ++ name ++ ".npy"

/-- Destination written by create_files_two_level (line 57). -/
def twoLevelCreatePath (name : String) : String :=
  "cache/2level/" ++ pyLast3 name ++ "/" ++ name ++ ".npy"

/-- Location read by test_two_level (line 127). -/
def twoLevelTestPath (name : String) : String :=
  "cache/2level/" ++ pyLast3 name ++ "/" ++ name ++ ".npy"

/-- Destination written by create_files_four_level (line 75): three
single-character directory levels name[-1], name[-2], name[-3]; an
identifier shorter than three characters raises IndexError. -/
def fourLevelCreatePath (name : String) : Option String :=
  match pyNegChar name 1, pyNegChar name 2, pyNegChar name 3 with
  | some c1, some c2, some c3 =>
    some ("cache/4level/" ++ String.mk [c1] ++ "/" ++ String.mk [c2] ++ "/" ++
      String.mk [c3] ++ "/" ++ name ++ ".npy")
  | _, _, _ => none

/-- Location read by test_four_level (lines 149-150), built from
name[-1], name[-2], name[-3] exactly as in the create phase. -/
def fourLevelTestPath (name : String) : Option String :=
  match pyNegChar name 1, pyNegChar name 2, pyNegChar name 3 with
  | some c1, some c2, some c3 =>
    some ("cache/4level/" ++ String.mk [c1] ++ "/" ++ String.mk [c2] ++ "/" ++
      String.mk [c3] ++ "/" ++ name ++ ".npy")
  | _, _, _ => none

/-- Hex digit character of n < 16, as Python %x formatting produces. -/
def hexDigit (n : Nat) : Char :=
  if n < 10 then Char.ofNat (48 + n) else Char.ofNat (87 + n)

/-- Python f-string {i:x} for i < 16. -/
def hex1 (n : Nat) : String := String.mk [hexDigit (n % 16)]

/-- Python "%03x" % i for i < 16^3. -/
def hex3 (n : Nat) : String :=
  String.mk [hexDigit (n / 256 % 16), hexDigit (n / 16 % 16), hexDigit (n % 16)]

/-! ### Create phase -/

/-- np.load("cache/filelist.npy"): MissingArtifact when init has not
run; a filelist holding floats (a state no claim reaches) is mapped to
TypeError. -/
def loadFilelist (st : St) : Except Err (List String) :=
  match st.fs "cache/filelist.npy" with
  | some (.strs files) => .ok files
  | some (.floats _) => .error .TypeError
  | none => .error .MissingArtifact

/-- The create loop shared by the three variable-length layouts: for
each identifier in persisted order, draw a length (one uniform draw),
draw that many uniforms, cast to float32 and np.save at the mapped
location. k is the index of the next unseen uniform draw (0 right
after np.random.seed(515)). Besides the final state, the list of
(path, content) pairs saved is returned, in save order, as an
observation of the writes performed. -/
def createVarFrom (e : Env) (pathOf : String → Option String) (size : Nat) :
    Nat → List String → St → Except Err (St × List (String × List Rat))
  | _, [], st => .ok (st, [])
  | k, name :: rest, st =>
    match pathOf name with
    | none => .error .IndexError
    | some p =>
      (createVarFrom e pathOf size (k + 1 + recLen e size k) rest
        { st with fs := fsStore st.fs p (.floats (recContent e size k)) }).map
        (fun r => (r.1, (p, recContent e size k) :: r.2))

/-- create_files_flat: mkdir cache/flat/, load the filelist, seed, then
the shared create loop with the flat location. -/
def create_files_flat (e : Env) (size : Nat) (st : St) :
    Except Err (St × List (String × List Rat)) :=
  let st1 := mkdir st "cache/flat/"
  match loadFilelist st1 with
  | .error err => .error err
  | .ok files => createVarFrom e (fun n => some (flatCreatePath n)) size 0 files st1

/-- create_files_two_level: mkdir cache/2level/, load the filelist,
pre-create the 4096 bucket directories %03x, seed, then the shared
create loop with the two-level location. -/
def create_files_two_level (e : Env) (size : Nat) (st : St) :
    Except Err (St × List (String × List Rat)) :=
  let st1 := mkdir st "cache/2level/"
  match loadFilelist st1 with
  | .error err => .error err
  | .ok files =>
    let st2 := (List.range (16 ^ 3)).foldl
      (fun s i => mkdir s ("cache/2level/" ++ hex3 i)) st1
    createVarFrom e (fun n => some (twoLevelCreatePath n)) size 0 files st2

/-- create_files_four_level: mkdir cache/4level/, load the filelist,
pre-create the 16x16x16 leaf directories (mkdir parents=True is
modelled as registering the leaf path), seed, then the shared create
loop with the four-level location. -/
def create_files_four_level (e : Env) (size : Nat) (st : St) :
    Except Err (St × List (String × List Rat)) :=
  let st1 := mkdir st "cache/4level/"
  match loadFilelist st1 with
  | .error err => .error err
  | .ok files =>
    let st2 := (List.range 16).foldl (fun s i =>
      (List.range 16).foldl (fun s j =>
        (List.range 16).foldl (fun s k =>
          mkdir s ("cache/4level/" ++ hex1 i ++ "/" ++ hex1 j ++ "/" ++
            hex1 k ++ "/")) s) s) st1
    createVarFrom e fourLevelCreatePath size 0 files st2

/-- Operations performed on the memmap block, recorded as a trace so
that the lifecycle of the mapping (open / write / flush / close) is
observable. -/
inductive MmOp where
  | openW
  | openR
  | writeRow (i : Nat)
  | readRow (i : Nat)
  | flush
  | close
deriving DecidableEq, Repr

/-- Row i of the memmap block as create_files_memmap writes it:
np.random.random(size).astype(np.float32), the i-th row consuming
draws i*size..(i+1)*size-1 after seeding. -/
def memmapRowContent (e : Env) (size i : Nat) : List Rat :=
  (List.range size).map (fun j => e.f32 (e.u (i * size + j)))

/-- The whole block of shape (n, size) laid out row-major (order C). -/
def memmapBlock (e : Env) (size n : Nat) : List Rat :=
  ((List.range n).map (memmapRowContent e size)).flatten

/-- create_files_memmap: mkdir cache/memmap/, load the filelist, open
the block with mode w+ at shape (count, size) (which creates it at
exactly that size), seed, write every row in index order, then
arr.flush(). The function returns (no explicit close or del of the
mapping appears in the source, so the trace carries no close). -/
def create_files_memmap (e : Env) (size : Nat) (st : St) :
    Except Err (St × List MmOp) :=
  let st1 := mkdir st "cache/memmap/"
  match loadFilelist st1 with
  | .error err => .error err
  | .ok files =>
    let n := files.length
    .ok ({ st1 with
            fs := fsStore st1.fs "cache/memmap/arr.npy"
              (.floats (memmapBlock e size n)) },
      .openW :: (List.range n).map MmOp.writeRow ++ [.flush])

/-! ### np.random.shuffle -/

/-- Exchange the entries at positions i and j when both exist. -/
def listSwap {α : Type} (l : List α) (i j : Nat) : List α :=
  match l[i]?, l[j]? with
  | some x, some y => (l.set i y).set j x
  | _, _ => l

/-- The Fisher-Yates loop of np.random.shuffle: for i from n-1 down to
1, draw j below i+1 (the c-th bounded draw after seeding) and swap
positions i and j. -/
def fyLoop {α : Type} (rb : Nat → Nat → Nat) : Nat → List α → Nat → List α
  | _, l, 0 => l
  | c, l, i + 1 => fyLoop rb (c + 1) (listSwap l (i + 1) (rb c (i + 2))) i

/-- np.random.seed(515); np.random.shuffle(l): the seeded in-place
shuffle, as a function of the seeded bounded-draw stream. -/
def npShuffle {α : Type} (rb : Nat → Nat → Nat) (l : List α) : List α :=
  fyLoop rb 0 l (l.length - 1)

/-! ### Test phase -/

/-- np.mean of an array, exact over rationals. (np.mean of an empty
array is NaN; no claim evaluates it, and Rat division by zero makes
the modelled value 0 there.) -/
def npMean (l : List Rat) : Rat := l.sum / l.length

/-- np.max of the nonempty list x :: xs. -/
def npMaxD (x : Rat) (xs : List Rat) : Rat := xs.foldl max x

/-- np.min of the nonempty list x :: xs. -/
def npMinD (x : Rat) (xs : List Rat) : Rat := xs.foldl min x

/-- What a test pass prints, along with the visit order it used: the
shuffled sequence visited, the per-record means in visit order, and
the printed np.max / np.mean / np.min of the means. -/
structure TestOut (α : Type) where
  visited : List α
  means : List Rat
  mx : Rat
  av : Rat
  mn : Rat
deriving DecidableEq, Repr

/-- The loop of a variable-length test pass: for each name in the
given (already shuffled) order, locate the artifact, np.load it and
append np.mean of its content; the first failure aborts the pass. -/
def loadMeans (fs : FS) (pathOf : String → Option String) :
    List String → Except Err (List Rat)
  | [] => .ok []
  | name :: rest =>
    match pathOf name with
    | none => .error .IndexError
    | some p =>
      match fs p with
      | none => .error .MissingArtifact
      | some (.strs _) => .error .TypeError
      | some (.floats v) => (loadMeans fs pathOf rest).map (fun ms => npMean v :: ms)

/-- The test pass shared by the three variable-length layouts: load
the filelist, seed and shuffle it, load every artifact in shuffled
order accumulating per-record means, then print np.max, np.mean,
np.min of the means (np.max of an empty list raises ValueError). -/
def testVar (e : Env) (pathOf : String → Option String) (st : St) :
    Except Err (TestOut String) :=
  match loadFilelist st with
  | .error err => .error err
  | .ok files =>
    let shuffled := npShuffle e.rb files
    match loadMeans st.fs pathOf shuffled with
    | .error err => .error err
    | .ok means =>
      match means with
      | [] => .error .ValueError
      | m :: ms => .ok ⟨shuffled, means, npMaxD m ms, npMean means, npMinD m ms⟩

/-- test_flat (the size argument is accepted and unused, as in the
source, whose size check is commented out). -/
def test_flat (e : Env) (size : Nat) (st : St) : Except Err (TestOut String) :=
  testVar e (fun n => some (flatTestPath n)) st

/-- test_two_level. -/
def test_two_level (e : Env) (size : Nat) (st : St) : Except Err (TestOut String) :=
  testVar e (fun n => some (twoLevelTestPath n)) st

/-- test_four_level. -/
def test_four_level (e : Env) (size : Nat) (st : St) : Except Err (TestOut String) :=
  testVar e fourLevelTestPath st

/-- np.memmap(p, mode="r", shape=(rows, cols)): FileNotFoundError when
the file is missing; numpy raises ValueError (the ShapeMismatch of the
spec) exactly when the stored data is smaller than rows*cols; when the
file is at least that large the first rows*cols entries are mapped,
with no complaint about a larger file. -/
def npMemmapRead (fs : FS) (p : String) (rows cols : Nat) : Except Err (List Rat) :=
  match fs p with
  | none => .error .MissingArtifact
  | some (.strs _) => .error .TypeError
  | some (.floats l) =>
    if l.length < rows * cols then .error .ShapeMismatch
    else .ok (l.take (rows * cols))

/-- Row i of a mapped view: arr[i] for a row-major shape (rows, size). -/
def memRow (view : List Rat) (size i : Nat) : List Rat :=
  (view.drop (i * size)).take size

/-- test_memmap: load the filelist, reopen the block read-only at
shape (count, size), seed and shuffle np.arange(count), then mean each
row in shuffled order and print np.max, np.mean, np.min. The trace
records the open and the row reads; the source closes nothing. -/
def test_memmap (e : Env) (size : Nat) (st : St) :
    Except Err (TestOut Nat × List MmOp) :=
  match loadFilelist st with
  | .error err => .error err
  | .ok files =>
    match npMemmapRead st.fs "cache/memmap/arr.npy" files.length size with
    | .error err => .error err
    | .ok view =>
      let idx := List.range files.length
      let shuffled := npShuffle e.rb idx
      let means := shuffled.map (fun i => npMean (memRow view size i))
      match means with
      | [] => .error .ValueError
      | m :: ms =>
        .ok (⟨shuffled, means, npMaxD m ms, npMean means, npMinD m ms⟩,
          .openR :: shuffled.map MmOp.readRow)

/-! ### init and the command dispatch -/

/-- The assert of create_filelist (line 33): reload the persisted list
and compare its first dimension with the requested count; a
disagreement is the CountMismatch of the spec (an AssertionError). -/
def countCheck (v : NpyVal) (n : Int) : Except Err Unit :=
  if (npShape0 v : Int) = n then .ok () else .error .CountMismatch

/-- create_filelist: generate n uuid4 hex identifiers, np.save them as
cache/filelist.npy, reload and run the count assert. The count is an
Int because the caller passes int(eval(COUNT)), which can be negative;
range of a negative count is empty. -/
def create_filelist (e : Env) (n : Int) (st : St) : Except Err St :=
  let ids := (List.range n.toNat).map e.uuid
  let st1 := { st with fs := fsStore st.fs "cache/filelist.npy" (.strs ids) }
  match st1.fs "cache/filelist.npy" with
  | none => .error .MissingArtifact
  | some v => (countCheck v n).map (fun _ => st1)

/-- Numeric value of a list of decimal digit characters. -/
def digitsVal (cs : List Char) : Nat :=
  cs.foldl (fun a c => a * 10 + (c.toNat - 48)) 0

/-- Whether every character is a decimal digit. -/
def isDigits (cs : List Char) : Bool := cs.all (fun c => c.isDigit)

/-- Lowercase a single ASCII letter (the case folding eval needs for
the scientific-notation marker). -/
def lowerChar (c : Char) : Char :=
  if c.isUpper then Char.ofNat (c.toNat + 32) else c

/-- Split a character list at every occurrence of a separator (the
splitting eval/float parsing performs on . e +). -/
def splitOnChar (sep : Char) : List Char → List (List Char)
  | [] => [[]]
  | c :: cs =>
    match splitOnChar sep cs, decide (c = sep) with
    | r, true => [] :: r
    | h :: t, false => (c :: h) :: t
    | [], false => [[c]]

/-- Python unsigned decimal literals (int or float): digits, or digits
with one dot where at least one side is nonempty. Modelled from the
documented Python literal grammar; used by the model of eval below. -/
def parseUDec (cs : List Char) : Option Rat :=
  match splitOnChar '.' cs with
  | [a] =>
    if !a.isEmpty && isDigits a then some (digitsVal a) else none
  | [a, b] =>
    if (!a.isEmpty || !b.isEmpty) && isDigits a && isDigits b then
      some ((digitsVal a : Rat) + (digitsVal b : Rat) / 10 ^ b.length)
    else none
  | _ => none

/-- Python unsigned numeric literals with an optional exponent part,
e.g. 3e5 or 1.5e-2. -/
def parseUSci (cs : List Char) : Option Rat :=
  match splitOnChar 'e' cs with
  | [a] => parseUDec a
  | [a, b] =>
    match parseUDec a with
    | none => none
    | some m =>
      match b with
      | '-' :: ds =>
        if !ds.isEmpty && isDigits ds then some (m / 10 ^ digitsVal ds) else none
      | '+' :: ds =>
        if !ds.isEmpty && isDigits ds then some (m * 10 ^ digitsVal ds) else none
      | ds =>
        if !ds.isEmpty && isDigits ds then some (m * 10 ^ digitsVal ds) else none
  | _ => none

/-- A numeric literal with an optional leading minus sign. -/
def parseSigned (cs : List Char) : Option Rat :=
  match cs with
  | '-' :: rest => (parseUSci rest).map (fun q => -q)
  | _ => parseUSci cs

/-- Model of eval(COUNT) restricted to numeric results: a signed
numeric literal (scientific forms included, case-insensitively), or a
sum of two such literals joined by + (eval accepts arbitrary Python
expressions, of which sums are kept as a representative; strings that
are not numeric expressions raise NameError or SyntaxError, modelled
as evaluation failure). -/
def pyEvalNum (s : String) : Option Rat :=
  let t := s.data.map lowerChar
  match parseSigned t with
  | some q => some q
  | none =>
    match splitOnChar '+' t with
    | [a, b] =>
      match parseSigned a, parseSigned b with
      | some x, some y => some (x + y)
      | _, _ => none
    | _ => none

/-- Python int() applied to a string, as used for --size: a decimal
integer literal with optional minus sign; anything else raises
ValueError. -/
def pyIntStr (s : String) : Option Int :=
  match s.data with
  | '-' :: ds =>
    if !ds.isEmpty && isDigits ds then some (-(digitsVal ds : Int)) else none
  | ds =>
    if !ds.isEmpty && isDigits ds then some (digitsVal ds : Int) else none

/-- The four layout tokens of the command line. -/
inductive Layout where
  | flat
  | two_level
  | four_level
  | memmap
deriving DecidableEq, Repr

/-- A parsed command line (docopt guarantees one of these shapes; the
size string is "256" when --size is not given). -/
inductive Cmd where
  | init (count : String)
  | create (layout : Layout) (size : String)
  | test (layout : Layout) (size : String)
deriving DecidableEq, Repr

/-- The dispatch of the main block (lines 172-194): init converts
COUNT with int(eval(.)), create/test convert --size with int(.); a
conversion failure is the InvalidArgument of the spec. A negative
--size is not modelled further (numpy rejects it); toNat is applied. -/
def dispatch (e : Env) (cmd : Cmd) (st : St) : Except Err St :=
  match cmd with
  | .init c =>
    match pyEvalNum c with
    | some q => create_filelist e (pyTrunc q) st
    | none => .error .InvalidArgument
  | .create l s =>
    match pyIntStr s with
    | none => .error .InvalidArgument
    | some z =>
      match l with
      | .flat => (create_files_flat e z.toNat st).map (fun r => r.1)
      | .two_level => (create_files_two_level e z.toNat st).map (fun r => r.1)
      | .four_level => (create_files_four_level e z.toNat st).map (fun r => r.1)
      | .memmap => (create_files_memmap e z.toNat st).map (fun r => r.1)
  | .test l s =>
    match pyIntStr s with
    | none => .error .InvalidArgument
    | some z =>
      match l with
      | .flat => (test_flat e z.toNat st).map (fun _ => st)
      | .two_level => (test_two_level e z.toNat st).map (fun _ => st)
      | .four_level => (test_four_level e z.toNat st).map (fun _ => st)
      | .memmap => (test_memmap e z.toNat st).map (fun _ => st)

/-- One program invocation. Line 24 runs at import time, before the
arguments are even parsed: Path("cache").mkdir(exist_ok=True). The
first component of the result is the state right after that
module-level mkdir (before any argument handling), the second the
outcome of the dispatched command starting from it. -/
def pyMain (e : Env) (cmd : Cmd) (st : St) : St × Except Err St :=
  let st1 := mkdir st "cache"
  (st1, dispatch e cmd st1)

/-! ### The shuffle produces a permutation -/

theorem get_cons_set_perm {α : Type} (t : List α) (m : Nat) (h : m < t.length) (c : α) :
    List.Perm (t[m] :: t.set m c) (c :: t) := by
  induction t generalizing m with
  | nil => simp at h
  | cons d t' ih =>
    cases m with
    | zero => simpa using List.Perm.swap c d t'
    | succ m =>
      have h' : m < t'.length := by simpa using h
      have ihm := ih m h'
      simp only [List.getElem_cons_succ, List.set_cons_succ]
      exact ((List.Perm.swap d (t'[m]) (t'.set m c)).trans
        (List.Perm.cons d ihm)).trans (List.Perm.swap c d t')

theorem set_set_perm {α : Type} (l : List α) (a b : Nat) (ha : a < l.length)
    (hb : b < l.length) : List.Perm ((l.set a l[b]).set b l[a]) l := by
  induction l generalizing a b with
  | nil => simp at ha
  | cons c t ih =>
    cases a with
    | zero =>
      cases b with
      | zero => simp
      | succ m =>
        have hm : m < t.length := by simpa using hb
        simpa using get_cons_set_perm t m hm c
    | succ k =>
      cases b with
      | zero =>
        have hk : k < t.length := by simpa using ha
        simpa using get_cons_set_perm t k hk c
      | succ m =>
        have hk : k < t.length := by simpa using ha
        have hm : m < t.length := by simpa using hb
        simpa using List.Perm.cons c (ih k m hk hm)

theorem listSwap_perm {α : Type} (l : List α) (i j : Nat) :
    List.Perm (listSwap l i j) l := by
  unfold listSwap
  cases hi : l[i]? with
  | none => exact List.Perm.refl l
  | some x =>
    cases hj : l[j]? with
    | none => exact List.Perm.refl l
    | some y =>
      obtain ⟨hib, hix⟩ := List.getElem?_eq_some.mp hi
      obtain ⟨hjb, hjy⟩ := List.getElem?_eq_some.mp hj
      subst hix; subst hjy
      exact set_set_perm l i j hib hjb

theorem fyLoop_perm {α : Type} (rb : Nat → Nat → Nat) :
    ∀ (i c : Nat) (l : List α), List.Perm (fyLoop rb c l i) l := by
  intro i
  induction i with
  | zero => intro c l; exact List.Perm.refl l
  | succ i ih =>
    intro c l
    exact (ih (c + 1) (listSwap l (i + 1) (rb c (i + 2)))).trans
      (listSwap_perm l (i + 1) (rb c (i + 2)))

/-- np.random.shuffle reorders the sequence: the shuffled list is a
permutation of the input. -/
theorem npShuffle_perm {α : Type} (rb : Nat → Nat → Nat) (l : List α) :
    List.Perm (npShuffle rb l) l :=
  fyLoop_perm rb (l.length - 1) 0 l

/-! ### Record length facts -/

theorem pyTrunc_of_nonneg {q : Rat} (h : 0 ≤ q) : pyTrunc q = ⌊q⌋ := by
  simp [pyTrunc, h]

/-- With a unit-interval draw, the drawn length is exactly
10 + floor(u k * 5 * size). -/
theorem recLen_eq (e : Env) (size k : Nat) (hu : UnitStream e.u) :
    (recLen e size k : Int) = 10 + ⌊e.u k * 5 * size⌋ := by
  obtain ⟨h0, _⟩ := hu k
  have hq : (0 : Rat) ≤ e.u k * 5 * size := by positivity
  have h10 : (0 : Rat) ≤ 10 + e.u k * 5 * size := by linarith
  have hfl : ⌊(10 : Rat) + e.u k * 5 * size⌋ = 10 + ⌊e.u k * 5 * size⌋ := by
    rw [add_comm]
    rw [show (10 : Rat) = ((10 : Int) : Rat) by norm_num]
    rw [Int.floor_add_int]
    omega
  have hnn : 0 ≤ ⌊e.u k * 5 * size⌋ := Int.floor_nonneg.mpr hq
  rw [recLen, pyTrunc_of_nonneg h10, hfl]
  omega

/-- Bounds of the drawn length: 10 ≤ len < 10 + 5 * size for positive
size. -/
theorem recLen_bounds (e : Env) (size k : Nat) (hu : UnitStream e.u)
    (hsize : 0 < size) : 10 ≤ recLen e size k ∧ recLen e size k < 10 + 5 * size := by
  obtain ⟨h0, h1⟩ := hu k
  have hq : (0 : Rat) ≤ e.u k * 5 * size := by positivity
  have hflnn : 0 ≤ ⌊e.u k * 5 * size⌋ := Int.floor_nonneg.mpr hq
  have hlt : e.u k * 5 * size < 5 * size := by
    have hs : (0 : Rat) < 5 * size := by positivity
    calc e.u k * 5 * size = e.u k * (5 * size) := by ring
      _ < 1 * (5 * size) := by exact mul_lt_mul_of_pos_right h1 hs
      _ = 5 * size := by ring
  have hfllt : ⌊e.u k * 5 * size⌋ < (5 * size : Int) := by
    apply Int.floor_lt.mpr
    push_cast
    exact hlt
  have he := recLen_eq e size k hu
  omega

theorem recContent_length (e : Env) (size k : Nat) :
    (recContent e size k).length = recLen e size k := by
  simp [recContent]

/-! ### Characterizing the create loop -/

/-- The writes the create loop performs, starting at draw index k: the
mapped path and the record content, one per identifier in order. -/
def mkWrites (e : Env) (f : String → String) (size : Nat) :
    Nat → List String → List (String × List Rat)
  | _, [] => []
  | k, name :: rest =>
    (f name, recContent e size k) :: mkWrites e f size (k + 1 + recLen e size k) rest

/-- Apply a list of writes to the filesystem, in order. -/
def applyWrites (fs : FS) : List (String × List Rat) → FS
  | [] => fs
  | (p, v) :: rest => applyWrites (fsStore fs p (.floats v)) rest

/-- The last value written at p by a list of writes, if any. -/
def lastWrite (p : String) : List (String × List Rat) → Option (List Rat)
  | [] => none
  | (q, v) :: rest =>
    match lastWrite p rest with
    | some w => some w
    | none => if p = q then some v else none

theorem applyWrites_apply (fs : FS) (W : List (String × List Rat)) (p : String) :
    applyWrites fs W p =
      match lastWrite p W with
      | some v => some (.floats v)
      | none => fs p := by
  induction W generalizing fs with
  | nil => rfl
  | cons qv rest ih =>
    obtain ⟨q, v⟩ := qv
    rw [applyWrites, lastWrite, ih]
    cases lastWrite p rest with
    | some w => rfl
    | none =>
      simp only [fsStore]
      by_cases hpq : p = q <;> simp [hpq]

theorem lastWrite_mem {p : String} {W : List (String × List Rat)} {v : List Rat}
    (h : lastWrite p W = some v) : (p, v) ∈ W := by
  induction W with
  | nil => simp [lastWrite] at h
  | cons qv rest ih =>
    obtain ⟨q, w⟩ := qv
    rw [lastWrite] at h
    cases hrest : lastWrite p rest with
    | some x =>
      rw [hrest] at h
      cases h
      exact List.mem_cons_of_mem _ (ih hrest)
    | none =>
      rw [hrest] at h
      by_cases hpq : p = q
      · simp [hpq] at h
        subst hpq
        cases h
        exact List.mem_cons_self _ _
      · simp [hpq] at h

theorem lastWrite_isSome_of_mem {p : String} {v : List Rat}
    {W : List (String × List Rat)} (h : (p, v) ∈ W) :
    (lastWrite p W).isSome := by
  induction W with
  | nil => simp at h
  | cons qv rest ih =>
    obtain ⟨q, w⟩ := qv
    rw [lastWrite]
    cases hrest : lastWrite p rest with
    | some x => simp
    | none =>
      rcases List.mem_cons.mp h with heq | hmem
      · cases heq
        simp
      · have := ih hmem
        rw [hrest] at this
        simp at this

/-- The create loop, when every identifier resolves, succeeds and its
effect is exactly applying the write list to the filesystem. -/
theorem createVarFrom_eq (e : Env) (pathOf : String → Option String)
    (f : String → String) (size : Nat) :
    ∀ (files : List String) (k : Nat) (st : St),
    (∀ n ∈ files, pathOf n = some (f n)) →
    createVarFrom e pathOf size k files st =
      .ok (⟨st.dirs, applyWrites st.fs (mkWrites e f size k files)⟩,
        mkWrites e f size k files) := by
  intro files
  induction files with
  | nil => intro k st _; rfl
  | cons name rest ih =>
    intro k st hf
    have hname : pathOf name = some (f name) := hf name (List.mem_cons_self _ _)
    have hrest : ∀ n ∈ rest, pathOf n = some (f n) :=
      fun n hn => hf n (List.mem_cons_of_mem _ hn)
    rw [createVarFrom, hname]
    have hrec := ih (k + 1 + recLen e size k)
      ⟨st.dirs, fsStore st.fs (f name) (.floats (recContent e size k))⟩ hrest
    simp only [hrec, Except.map, mkWrites, applyWrites]

/-- The paths written are the mapped identifiers, in order. -/
theorem mkWrites_map_fst (e : Env) (f : String → String) (size : Nat) :
    ∀ (files : List String) (k : Nat),
    (mkWrites e f size k files).map Prod.fst = files.map f := by
  intro files
  induction files with
  | nil => intro k; rfl
  | cons name rest ih =>
    intro k
    simp [mkWrites, ih]

/-- The record contents generated when m records are created starting
from draw index k. No identifier appears: content is a function of
position, the seeded stream, and size alone. -/
def contentsOf (e : Env) (size : Nat) : Nat → Nat → List (List Rat)
  | _, 0 => []
  | k, m + 1 => recContent e size k :: contentsOf e size (k + 1 + recLen e size k) m

/-- The values written are the position-determined contents. -/
theorem mkWrites_map_snd (e : Env) (f : String → String) (size : Nat) :
    ∀ (files : List String) (k : Nat),
    (mkWrites e f size k files).map Prod.snd = contentsOf e size k files.length := by
  intro files
  induction files with
  | nil => intro k; rfl
  | cons name rest ih =>
    intro k
    simp [mkWrites, contentsOf, ih]

/-- Every value written by the create loop has the drawn length, hence
lies in the interval for positive size. -/
theorem mkWrites_length_bounds (e : Env) (f : String → String) (size : Nat)
    (hu : UnitStream e.u) (hsize : 0 < size) :
    ∀ (files : List String) (k : Nat), ∀ pv ∈ mkWrites e f size k files,
    10 ≤ (Prod.snd pv).length ∧ (Prod.snd pv).length < 10 + 5 * size := by
  intro files
  induction files with
  | nil => intro k pv hpv; simp [mkWrites] at hpv
  | cons name rest ih =>
    intro k pv hpv
    rw [mkWrites] at hpv
    rcases List.mem_cons.mp hpv with heq | hmem
    · subst heq
      simp only [recContent_length]
      exact recLen_bounds e size k hu hsize
    · exact ih _ pv hmem

/-! ### The printed aggregates really are max / min of the means -/

theorem le_npMaxD (x : Rat) (xs : List Rat) : ∀ m ∈ x :: xs, m ≤ npMaxD x xs := by
  induction xs generalizing x with
  | nil => intro m hm; simp at hm; simp [npMaxD, hm]
  | cons y ys ih =>
    intro m hm
    have step : npMaxD x (y :: ys) = npMaxD (max x y) ys := rfl
    rw [step]
    rcases List.mem_cons.mp hm with rfl | h
    · exact le_trans (le_max_left m y)
        (ih (max m y) (max m y) (List.mem_cons_self _ _))
    · rcases List.mem_cons.mp h with rfl | h2
      · exact le_trans (le_max_right x m)
          (ih (max x m) (max x m) (List.mem_cons_self _ _))
      · exact ih (max x y) m (List.mem_cons_of_mem _ h2)

theorem npMaxD_mem (x : Rat) (xs : List Rat) : npMaxD x xs ∈ x :: xs := by
  induction xs generalizing x with
  | nil => simp [npMaxD]
  | cons y ys ih =>
    have step : npMaxD x (y :: ys) = npMaxD (max x y) ys := rfl
    rw [step]
    rcases List.mem_cons.mp (ih (max x y)) with h | h
    · rcases max_choice x y with hx | hy
      · rw [h, hx]; exact List.mem_cons_self _ _
      · rw [h, hy]; exact List.mem_cons_of_mem _ (List.mem_cons_self _ _)
    · exact List.mem_cons_of_mem _ (List.mem_cons_of_mem _ h)

theorem npMinD_le (x : Rat) (xs : List Rat) : ∀ m ∈ x :: xs, npMinD x xs ≤ m := by
  induction xs generalizing x with
  | nil => intro m hm; simp at hm; simp [npMinD, hm]
  | cons y ys ih =>
    intro m hm
    have step : npMinD x (y :: ys) = npMinD (min x y) ys := rfl
    rw [step]
    rcases List.mem_cons.mp hm with rfl | h
    · exact le_trans (ih (min m y) (min m y) (List.mem_cons_self _ _))
        (min_le_left m y)
    · rcases List.mem_cons.mp h with rfl | h2
      · exact le_trans (ih (min x m) (min x m) (List.mem_cons_self _ _))
          (min_le_right x m)
      · exact ih (min x y) m (List.mem_cons_of_mem _ h2)

theorem npMinD_mem (x : Rat) (xs : List Rat) : npMinD x xs ∈ x :: xs := by
  induction xs generalizing x with
  | nil => simp [npMinD]
  | cons y ys ih =>
    have step : npMinD x (y :: ys) = npMinD (min x y) ys := rfl
    rw [step]
    rcases List.mem_cons.mp (ih (min x y)) with h | h
    · rcases min_choice x y with hx | hy
      · rw [h, hx]; exact List.mem_cons_self _ _
      · rw [h, hy]; exact List.mem_cons_of_mem _ (List.mem_cons_self _ _)
    · exact List.mem_cons_of_mem _ (List.mem_cons_of_mem _ h)

/-! ### The test loop under present artifacts -/

/-- When every identifier resolves and its artifact is present, the
test loop returns the per-record means, in visit order. -/
theorem loadMeans_eq (fs : FS) (pathOf : String → Option String)
    (f : String → String) (g : String → List Rat) :
    ∀ (l : List String),
    (∀ n ∈ l, pathOf n = some (f n) ∧ fs (f n) = some (.floats (g n))) →
    loadMeans fs pathOf l = .ok (l.map (fun n => npMean (g n))) := by
  intro l
  induction l with
  | nil => intro _; rfl
  | cons name rest ih =>
    intro h
    obtain ⟨hp, hv⟩ := h name (List.mem_cons_self _ _)
    simp only [loadMeans, hp, hv, ih (fun n hn => h n (List.mem_cons_of_mem _ hn)),
      Except.map, List.map_cons]

/-! ### Memmap block geometry -/

theorem memmapRowContent_length (e : Env) (size i : Nat) :
    (memmapRowContent e size i).length = size := by
  simp [memmapRowContent]

theorem memmapBlock_length (e : Env) (size n : Nat) :
    (memmapBlock e size n).length = n * size := by
  rw [memmapBlock, List.length_flatten, List.map_map]
  have hconst : (List.length ∘ memmapRowContent e size) = Function.const Nat size := by
    funext i
    simp [memmapRowContent_length, Function.const]
  rw [hconst, List.map_const, List.sum_replicate, List.length_range, smul_eq_mul]

/-- Extracting a row from the flattened block: rows of uniform length
s laid out consecutively. -/
theorem flatten_row {α : Type} (s : Nat) :
    ∀ (L : List (List α)) (i : Nat) (h : i < L.length),
    (∀ r ∈ L, r.length = s) →
    ((L.flatten.drop (i * s)).take s) = L[i] := by
  intro L
  induction L with
  | nil => intro i h _; simp at h
  | cons r rest ih =>
    intro i h hlen
    have hr : r.length = s := hlen r (List.mem_cons_self _ _)
    cases i with
    | zero =>
      simp only [Nat.zero_mul, List.drop_zero, List.flatten_cons,
        List.getElem_cons_zero]
      rw [← hr, List.take_left]
    | succ i =>
      have h' : i < rest.length := by simpa using h
      have hlen' : ∀ x ∈ rest, x.length = s :=
        fun x hx => hlen x (List.mem_cons_of_mem _ hx)
      rw [List.flatten_cons, List.getElem_cons_succ]
      have harith : (i + 1) * s = r.length + i * s := by rw [hr]; ring
      rw [harith, List.drop_append]
      exact ih i h' hlen'

/-! ### Result projections (used to observe outcomes) -/

/-- Filesystem contents at a path after an operation that returns a
state; none when the operation failed. -/
def outFS {α : Type} (r : Except Err (St × α)) (p : String) : Option NpyVal :=
  match r with
  | .ok sa => sa.1.fs p
  | .error _ => none

/-- The error of a failed result, if any. -/
def errOf {α : Type} : Except Err α → Option Err
  | .error err => some err
  | .ok _ => none

/-- Filesystem contents at a path after an operation returning a bare
state. -/
def resFS (r : Except Err St) (p : String) : Option NpyVal :=
  match r with
  | .ok s => s.fs p
  | .error _ => none

/-- The memmap operation trace of a create result ([] on failure). -/
def traceOfC (r : Except Err (St × List MmOp)) : List MmOp :=
  match r with
  | .ok sa => sa.2
  | .error _ => []

/-- The memmap operation trace of a test result ([] on failure). -/
def traceOfT (r : Except Err (TestOut Nat × List MmOp)) : List MmOp :=
  match r with
  | .ok sa => sa.2
  | .error _ => []

/-! ### The four-level location in closed form -/

/-- The k-th character from the end with a default (total companion of
pyNegChar, equal to it on strings of length at least k). -/
def charFromEnd (s : String) (k : Nat) : Char :=
  s.data.getD (s.data.length - k) 'a'

/-- The four-level location as a total function of identifiers of
length at least three. -/
def fourLevelLocOf (name : String) : String :=
  "cache/4level/" ++ String.mk [charFromEnd name 1] ++ "/" ++
    String.mk [charFromEnd name 2] ++ "/" ++ String.mk [charFromEnd name 3] ++
    "/" ++ name ++ ".npy"

theorem pyNegChar_of_le {s : String} {k : Nat} (h1 : 1 ≤ k)
    (h2 : k ≤ s.data.length) : pyNegChar s k = some (charFromEnd s k) := by
  have hlt : s.data.length - k < s.data.length := by omega
  rw [pyNegChar, if_pos ⟨h1, h2⟩, List.getElem?_eq_getElem hlt, charFromEnd,
    List.getD_eq_getElem s.data 'a' hlt]

theorem fourLevelCreatePath_of_len {name : String} (h : 3 ≤ name.data.length) :
    fourLevelCreatePath name = some (fourLevelLocOf name) := by
  rw [fourLevelCreatePath,
    pyNegChar_of_le (by omega) (by omega),
    pyNegChar_of_le (by omega) h,
    pyNegChar_of_le (by omega) (by omega)]
  rfl

theorem fourLevelTestPath_of_len {name : String} (h : 3 ≤ name.data.length) :
    fourLevelTestPath name = some (fourLevelLocOf name) := by
  rw [fourLevelTestPath,
    pyNegChar_of_le (by omega) (by omega),
    pyNegChar_of_le (by omega) h,
    pyNegChar_of_le (by omega) (by omega)]
  rfl

/-! ### Per-record lengths of a create pass -/

/-- The lengths drawn for m consecutive records starting at draw index
k; each record uses a fresh draw (its own index k), and the next
record starts after the draws this one consumed. -/
def lensFrom (e : Env) (size : Nat) : Nat → Nat → List Nat
  | _, 0 => []
  | k, m + 1 => recLen e size k :: lensFrom e size (k + 1 + recLen e size k) m

theorem contentsOf_map_length (e : Env) (size : Nat) :
    ∀ (m k : Nat), (contentsOf e size k m).map List.length = lensFrom e size k m := by
  intro m
  induction m with
  | zero => intro k; rfl
  | succ m ih =>
    intro k
    simp [contentsOf, lensFrom, recContent_length, ih]

/-- Every identifier in the list has a write at its mapped path. -/
theorem mem_mkWrites (e : Env) (f : String → String) (size : Nat) :
    ∀ (files : List String) (k : Nat) (name : String), name ∈ files →
    ∃ v, (f name, v) ∈ mkWrites e f size k files := by
  intro files
  induction files with
  | nil => intro k name hn; simp at hn
  | cons x rest ih =>
    intro k name hn
    rcases List.mem_cons.mp hn with rfl | hmem
    · exact ⟨recContent e size k, List.mem_cons_self _ _⟩
    · obtain ⟨v, hv⟩ := ih (k + 1 + recLen e size k) name hmem
      exact ⟨v, List.mem_cons_of_mem _ hv⟩

/-! ### Wrapper characterizations of the create functions -/

theorem foldl_fs_invariant {β : Type} (f : St → β → St)
    (hf : ∀ s b, (f s b).fs = s.fs) :
    ∀ (l : List β) (st : St), (l.foldl f st).fs = st.fs := by
  intro l
  induction l with
  | nil => intro st; rfl
  | cons b rest ih => intro st; rw [List.foldl_cons, ih, hf]

theorem create_files_flat_eq (e : Env) (size : Nat) (st : St)
    (files : List String) (h : st.fs "cache/filelist.npy" = some (.strs files)) :
    ∃ ds, create_files_flat e size st =
      .ok (⟨ds, applyWrites st.fs (mkWrites e flatCreatePath size 0 files)⟩,
        mkWrites e flatCreatePath size 0 files) := by
  refine ⟨(mkdir st "cache/flat/").dirs, ?_⟩
  rw [create_files_flat]
  have hload : loadFilelist (mkdir st "cache/flat/") = .ok files := by
    rw [loadFilelist]
    have : (mkdir st "cache/flat/").fs = st.fs := rfl
    rw [this, h]
  rw [hload]
  exact createVarFrom_eq e _ flatCreatePath size files 0 (mkdir st "cache/flat/")
    (fun n _ => rfl)

theorem create_files_two_level_eq (e : Env) (size : Nat) (st : St)
    (files : List String) (h : st.fs "cache/filelist.npy" = some (.strs files)) :
    ∃ ds, create_files_two_level e size st =
      .ok (⟨ds, applyWrites st.fs (mkWrites e twoLevelCreatePath size 0 files)⟩,
        mkWrites e twoLevelCreatePath size 0 files) := by
  rw [create_files_two_level]
  have hload : loadFilelist (mkdir st "cache/2level/") = .ok files := by
    rw [loadFilelist]
    have : (mkdir st "cache/2level/").fs = st.fs := rfl
    rw [this, h]
  rw [hload]
  have hfs : ((List.range (16 ^ 3)).foldl
      (fun s i => mkdir s ("cache/2level/" ++ hex3 i)) (mkdir st "cache/2level/")).fs
      = st.fs :=
    foldl_fs_invariant (fun s i => mkdir s ("cache/2level/" ++ hex3 i))
      (fun s b => rfl) _ _
  refine ⟨((List.range (16 ^ 3)).foldl
      (fun s i => mkdir s ("cache/2level/" ++ hex3 i)) (mkdir st "cache/2level/")).dirs, ?_⟩
  exact (createVarFrom_eq e _ twoLevelCreatePath size files 0 _ (fun n _ => rfl)).trans
    (by rw [hfs])

theorem create_files_four_level_eq (e : Env) (size : Nat) (st : St)
    (files : List String) (h : st.fs "cache/filelist.npy" = some (.strs files))
    (hlen3 : ∀ n ∈ files, 3 ≤ n.data.length) :
    ∃ ds, create_files_four_level e size st =
      .ok (⟨ds, applyWrites st.fs (mkWrites e fourLevelLocOf size 0 files)⟩,
        mkWrites e fourLevelLocOf size 0 files) := by
  rw [create_files_four_level]
  have hload : loadFilelist (mkdir st "cache/4level/") = .ok files := by
    rw [loadFilelist]
    have : (mkdir st "cache/4level/").fs = st.fs := rfl
    rw [this, h]
  rw [hload]
  have hk : ∀ (i j : Nat) (s : St),
      ((List.range 16).foldl (fun s k =>
        mkdir s ("cache/4level/" ++ hex1 i ++ "/" ++ hex1 j ++ "/" ++
          hex1 k ++ "/")) s).fs = s.fs :=
    fun i j s => foldl_fs_invariant (fun s k =>
      mkdir s ("cache/4level/" ++ hex1 i ++ "/" ++ hex1 j ++ "/" ++ hex1 k ++ "/"))
      (fun s b => rfl) _ s
  have hj : ∀ (i : Nat) (s : St),
      ((List.range 16).foldl (fun s j =>
        (List.range 16).foldl (fun s k =>
          mkdir s ("cache/4level/" ++ hex1 i ++ "/" ++ hex1 j ++ "/" ++
            hex1 k ++ "/")) s) s).fs = s.fs :=
    fun i s => foldl_fs_invariant (fun s j =>
      (List.range 16).foldl (fun s k =>
        mkdir s ("cache/4level/" ++ hex1 i ++ "/" ++ hex1 j ++ "/" ++
          hex1 k ++ "/")) s)
      (fun s b => hk i b s) _ s
  have hfs : ((List.range 16).foldl (fun s i =>
      (List.range 16).foldl (fun s j =>
        (List.range 16).foldl (fun s k =>
          mkdir s ("cache/4level/" ++ hex1 i ++ "/" ++ hex1 j ++ "/" ++
            hex1 k ++ "/")) s) s) (mkdir st "cache/4level/")).fs = st.fs :=
    foldl_fs_invariant (fun s i =>
      (List.range 16).foldl (fun s j =>
        (List.range 16).foldl (fun s k =>
          mkdir s ("cache/4level/" ++ hex1 i ++ "/" ++ hex1 j ++ "/" ++
            hex1 k ++ "/")) s) s)
      (fun s b => hj b s) _ _
  refine ⟨((List.range 16).foldl (fun s i =>
      (List.range 16).foldl (fun s j =>
        (List.range 16).foldl (fun s k =>
          mkdir s ("cache/4level/" ++ hex1 i ++ "/" ++ hex1 j ++ "/" ++
            hex1 k ++ "/")) s) s) (mkdir st "cache/4level/")).dirs, ?_⟩
  exact (createVarFrom_eq e fourLevelCreatePath fourLevelLocOf size files 0 _
    (fun n hn => fourLevelCreatePath_of_len (hlen3 n hn))).trans (by rw [hfs])

theorem create_files_memmap_eq (e : Env) (size : Nat) (st : St)
    (files : List String) (h : st.fs "cache/filelist.npy" = some (.strs files)) :
    ∃ ds, create_files_memmap e size st =
      .ok (⟨ds, fsStore st.fs "cache/memmap/arr.npy"
          (.floats (memmapBlock e size files.length))⟩,
        MmOp.openW :: (List.range files.length).map MmOp.writeRow ++ [MmOp.flush]) := by
  refine ⟨(mkdir st "cache/memmap/").dirs, ?_⟩
  rw [create_files_memmap]
  have hload : loadFilelist (mkdir st "cache/memmap/") = .ok files := by
    rw [loadFilelist]
    have : (mkdir st "cache/memmap/").fs = st.fs := rfl
    rw [this, h]
  rw [hload]
  rfl

/-! ### Concrete fixtures used by witnesses -/

/-- A concrete environment: every uniform draw is 1/2, every bounded
draw is 0, the float32 cast is the identity, and the k-th uuid is a
string of k+3 letters a (so identifiers are pairwise distinct and at
least three characters long). -/
def e0 : Env :=
  ⟨fun _ => (1 : Rat) / 2, fun _ _ => 0, id,
    fun k => String.mk (List.replicate (k + 3) 'a')⟩

theorem e0_unit : UnitStream e0.u := by
  intro k
  constructor <;> norm_num [e0]

/-- The empty initial state. -/
def st0 : St := ⟨[], fun _ => none⟩

/-- A state holding a persisted one-identifier filelist. -/
def stF : St := ⟨[], fsStore (fun _ => none) "cache/filelist.npy" (.strs ["abc"])⟩

/-! ### C1 -/

/-- C1: init persists the generated identifiers (count many when the
count is a natural number, so the persisted set has exactly the
requested size), then re-reads the persisted artifact and compares its
count with the requested one: when the reloaded count equals the
request the operation completes successfully with the set persisted,
and when it differs (as happens for a negative evaluated count, whose
generated set is empty) it fails with CountMismatch. -/
theorem C1_init_persists_and_checks (e : Env) (st : St) (m : Int) :
    (((List.range m.toNat).map e.uuid).length = m.toNat) ∧
    ((m.toNat : Int) = m →
      create_filelist e m st =
        .ok ⟨st.dirs, fsStore st.fs "cache/filelist.npy"
          (.strs ((List.range m.toNat).map e.uuid))⟩) ∧
    ((m.toNat : Int) ≠ m → create_filelist e m st = .error .CountMismatch) := by
  have hlen : ((List.range m.toNat).map e.uuid).length = m.toNat := by simp
  refine ⟨hlen, ?_, ?_⟩ <;> intro h
  · simp [create_filelist, fsStore, countCheck, npShape0, hlen, h, Except.map]
  · have h' : ¬(0 ≤ m) := fun h0 => h (Int.toNat_of_nonneg h0)
    simp [create_filelist, fsStore, countCheck, npShape0, hlen, h, h', Except.map]

/-- Witness for C1: a run with count 2 persists both generated
identifiers and succeeds; a run with evaluated count -1 (whose
generated set is empty, so the reloaded count 0 differs) fails with
CountMismatch. -/
theorem C1_witness :
    (((2 : Int).toNat : Int) = 2) ∧
    create_filelist e0 2 st0 =
      .ok ⟨st0.dirs, fsStore st0.fs "cache/filelist.npy"
        (.strs ((List.range (2 : Int).toNat).map e0.uuid))⟩ ∧
    (((-1 : Int).toNat : Int) ≠ -1) ∧
    create_filelist e0 (-1) st0 = .error .CountMismatch :=
  ⟨by decide,
    (C1_init_persists_and_checks e0 st0 2).2.1 (by decide),
    by decide,
    (C1_init_persists_and_checks e0 st0 (-1)).2.2 (by decide)⟩

/-! ### C3, C10, C5 -/

theorem mkWrites_lens (e : Env) (f : String → String) (size : Nat) :
    ∀ (files : List String) (k : Nat),
    (mkWrites e f size k files).map (fun pv => pv.2.length) =
      lensFrom e size k files.length := by
  intro files k
  rw [show (fun pv : String × List Rat => pv.2.length) = (List.length ∘ Prod.snd)
    from rfl]
  rw [← List.map_map, mkWrites_map_snd, contentsOf_map_length]

theorem applyWrites_at_written (fs₁ fs₂ : FS) (W : List (String × List Rat))
    (p : String) (hw : ∃ v, (p, v) ∈ W) :
    applyWrites fs₁ W p = applyWrites fs₂ W p ∧ (applyWrites fs₁ W p).isSome := by
  obtain ⟨v, hv⟩ := hw
  obtain ⟨w, hw'⟩ := Option.isSome_iff_exists.mp (lastWrite_isSome_of_mem hv)
  rw [applyWrites_apply, applyWrites_apply, hw']
  simp

/-- C3: in the create phase of the flat, two-level and four-level
layouts, the k-th record written has length exactly
10 + floor(U * 5 * SIZE) for the fresh uniform draw U taken first for
that record (lensFrom threads the draw indices: each record uses its
own draw and advances the stream); hence, for positive SIZE, every
written length lies in [10, 10 + 5 * SIZE). -/
theorem C3_var_create_lengths (e : Env) (size : Nat) (st : St)
    (files : List String) (hu : UnitStream e.u) (hsize : 0 < size)
    (hfl : st.fs "cache/filelist.npy" = some (.strs files))
    (hlen3 : ∀ n ∈ files, 3 ≤ n.data.length) :
    (∀ k, (recLen e size k : Int) = 10 + ⌊e.u k * 5 * size⌋) ∧
    (∃ stR W, create_files_flat e size st = .ok (stR, W) ∧
      W.map (fun pv => pv.2.length) = lensFrom e size 0 files.length ∧
      ∀ pv ∈ W, 10 ≤ pv.2.length ∧ pv.2.length < 10 + 5 * size) ∧
    (∃ stR W, create_files_two_level e size st = .ok (stR, W) ∧
      W.map (fun pv => pv.2.length) = lensFrom e size 0 files.length ∧
      ∀ pv ∈ W, 10 ≤ pv.2.length ∧ pv.2.length < 10 + 5 * size) ∧
    (∃ stR W, create_files_four_level e size st = .ok (stR, W) ∧
      W.map (fun pv => pv.2.length) = lensFrom e size 0 files.length ∧
      ∀ pv ∈ W, 10 ≤ pv.2.length ∧ pv.2.length < 10 + 5 * size) := by
  refine ⟨fun k => recLen_eq e size k hu, ?_, ?_, ?_⟩
  · obtain ⟨ds, heq⟩ := create_files_flat_eq e size st files hfl
    exact ⟨_, _, heq, mkWrites_lens e flatCreatePath size files 0,
      fun pv hpv => mkWrites_length_bounds e flatCreatePath size hu hsize files 0 pv hpv⟩
  · obtain ⟨ds, heq⟩ := create_files_two_level_eq e size st files hfl
    exact ⟨_, _, heq, mkWrites_lens e twoLevelCreatePath size files 0,
      fun pv hpv => mkWrites_length_bounds e twoLevelCreatePath size hu hsize files 0 pv hpv⟩
  · obtain ⟨ds, heq⟩ := create_files_four_level_eq e size st files hfl hlen3
    exact ⟨_, _, heq, mkWrites_lens e fourLevelLocOf size files 0,
      fun pv hpv => mkWrites_length_bounds e fourLevelLocOf size hu hsize files 0 pv hpv⟩

/-- Witness for C3 at the unit-interval stream of constant 1/2, size 1
and a one-identifier filelist. -/
theorem C3_witness :
    UnitStream e0.u ∧ (0 : Nat) < 1 ∧
    stF.fs "cache/filelist.npy" = some (.strs ["abc"]) ∧
    (∀ n ∈ ["abc"], 3 ≤ n.data.length) ∧
    (∀ k, (recLen e0 1 k : Int) = 10 + ⌊e0.u k * 5 * 1⌋) ∧
    (∃ stR W, create_files_flat e0 1 stF = .ok (stR, W) ∧
      W.map (fun pv => pv.2.length) = lensFrom e0 1 0 (["abc"] : List String).length ∧
      ∀ pv ∈ W, 10 ≤ pv.2.length ∧ pv.2.length < 10 + 5 * 1) := by
  have h := C3_var_create_lengths e0 1 stF ["abc"] e0_unit (by decide) rfl (by decide)
  exact ⟨e0_unit, by decide, rfl, by decide, h.1, h.2.1⟩

/-- C10 (implicit): in the flat, two-level and four-level create
phases, the content (and so the length) written at each position
depends only on the position, the seeded stream and SIZE, never on the
identifier, which determines only the location: the written values are
contentsOf (a function with no access to identifiers) and the written
paths are the mapped identifiers; two identifier lists of equal length
yield identical written contents position by position. -/
theorem C10_contents_position_only (e : Env) (size : Nat) (stA stB : St)
    (filesA filesB : List String)
    (hA : stA.fs "cache/filelist.npy" = some (.strs filesA))
    (hB : stB.fs "cache/filelist.npy" = some (.strs filesB))
    (hlen : filesA.length = filesB.length)
    (h3A : ∀ n ∈ filesA, 3 ≤ n.data.length)
    (h3B : ∀ n ∈ filesB, 3 ≤ n.data.length) :
    (∃ s1 W1 s2 W2,
      create_files_flat e size stA = .ok (s1, W1) ∧
      create_files_flat e size stB = .ok (s2, W2) ∧
      W1.map Prod.snd = contentsOf e size 0 filesA.length ∧
      W1.map Prod.fst = filesA.map flatCreatePath ∧
      W2.map Prod.snd = W1.map Prod.snd) ∧
    (∃ s1 W1 s2 W2,
      create_files_two_level e size stA = .ok (s1, W1) ∧
      create_files_two_level e size stB = .ok (s2, W2) ∧
      W1.map Prod.snd = contentsOf e size 0 filesA.length ∧
      W1.map Prod.fst = filesA.map twoLevelCreatePath ∧
      W2.map Prod.snd = W1.map Prod.snd) ∧
    (∃ s1 W1 s2 W2,
      create_files_four_level e size stA = .ok (s1, W1) ∧
      create_files_four_level e size stB = .ok (s2, W2) ∧
      W1.map Prod.snd = contentsOf e size 0 filesA.length ∧
      W1.map Prod.fst = filesA.map fourLevelLocOf ∧
      W2.map Prod.snd = W1.map Prod.snd) := by
  refine ⟨?_, ?_, ?_⟩
  · obtain ⟨ds1, h1⟩ := create_files_flat_eq e size stA filesA hA
    obtain ⟨ds2, h2⟩ := create_files_flat_eq e size stB filesB hB
    refine ⟨_, _, _, _, h1, h2, mkWrites_map_snd e flatCreatePath size filesA 0,
      mkWrites_map_fst e flatCreatePath size filesA 0, ?_⟩
    rw [mkWrites_map_snd, mkWrites_map_snd, hlen]
  · obtain ⟨ds1, h1⟩ := create_files_two_level_eq e size stA filesA hA
    obtain ⟨ds2, h2⟩ := create_files_two_level_eq e size stB filesB hB
    refine ⟨_, _, _, _, h1, h2, mkWrites_map_snd e twoLevelCreatePath size filesA 0,
      mkWrites_map_fst e twoLevelCreatePath size filesA 0, ?_⟩
    rw [mkWrites_map_snd, mkWrites_map_snd, hlen]
  · obtain ⟨ds1, h1⟩ := create_files_four_level_eq e size stA filesA hA h3A
    obtain ⟨ds2, h2⟩ := create_files_four_level_eq e size stB filesB hB h3B
    refine ⟨_, _, _, _, h1, h2, mkWrites_map_snd e fourLevelLocOf size filesA 0,
      mkWrites_map_fst e fourLevelLocOf size filesA 0, ?_⟩
    rw [mkWrites_map_snd, mkWrites_map_snd, hlen]

/-- A second one-identifier filelist with a different identifier. -/
def stX : St := ⟨[], fsStore (fun _ => none) "cache/filelist.npy" (.strs ["xyz"])⟩

/-- Witness for C10: two different one-identifier sets (abc vs xyz)
yield the same written contents in the flat create phase. -/
theorem C10_witness :
    stF.fs "cache/filelist.npy" = some (.strs ["abc"]) ∧
    stX.fs "cache/filelist.npy" = some (.strs ["xyz"]) ∧
    (["abc"] : List String).length = (["xyz"] : List String).length ∧
    (∃ s1 W1 s2 W2,
      create_files_flat e0 1 stF = .ok (s1, W1) ∧
      create_files_flat e0 1 stX = .ok (s2, W2) ∧
      W1.map Prod.snd = contentsOf e0 1 0 (["abc"] : List String).length ∧
      W1.map Prod.fst = (["abc"] : List String).map flatCreatePath ∧
      W2.map Prod.snd = W1.map Prod.snd) := by
  have h := C10_contents_position_only e0 1 stF stX ["abc"] ["xyz"] rfl rfl
    (by decide) (by decide) (by decide)
  exact ⟨rfl, rfl, by decide, h.1⟩

/-- A state like stF but with pre-existing junk at the flat location,
to exhibit independence from the initial filesystem. -/
def stF2 : St :=
  ⟨[], fsStore (fsStore (fun _ => none) "cache/flat/abc.npy" (.floats [7]))
    "cache/filelist.npy" (.strs ["abc"])⟩

/-- C5: with the same seed (that is, the same seeded streams), the
same persisted identifier set and the same SIZE, two independent
create runs, even from different initial filesystems, leave identical
content at every record location, for all four layouts (for the
variable-length layouts this includes the per-record length, since
the stored values are equal as lists). -/
theorem C5_deterministic_create (e : Env) (size : Nat) (st₁ st₂ : St)
    (files : List String)
    (h₁ : st₁.fs "cache/filelist.npy" = some (.strs files))
    (h₂ : st₂.fs "cache/filelist.npy" = some (.strs files))
    (hlen3 : ∀ n ∈ files, 3 ≤ n.data.length) :
    (∀ name ∈ files,
      outFS (create_files_flat e size st₁) (flatCreatePath name) =
        outFS (create_files_flat e size st₂) (flatCreatePath name) ∧
      (outFS (create_files_flat e size st₁) (flatCreatePath name)).isSome) ∧
    (∀ name ∈ files,
      outFS (create_files_two_level e size st₁) (twoLevelCreatePath name) =
        outFS (create_files_two_level e size st₂) (twoLevelCreatePath name) ∧
      (outFS (create_files_two_level e size st₁) (twoLevelCreatePath name)).isSome) ∧
    (∀ name ∈ files,
      outFS (create_files_four_level e size st₁) (fourLevelLocOf name) =
        outFS (create_files_four_level e size st₂) (fourLevelLocOf name) ∧
      (outFS (create_files_four_level e size st₁) (fourLevelLocOf name)).isSome) ∧
    (outFS (create_files_memmap e size st₁) "cache/memmap/arr.npy" =
       outFS (create_files_memmap e size st₂) "cache/memmap/arr.npy" ∧
     (outFS (create_files_memmap e size st₁) "cache/memmap/arr.npy").isSome) := by
  refine ⟨?_, ?_, ?_, ?_⟩
  · intro name hname
    obtain ⟨ds1, hq1⟩ := create_files_flat_eq e size st₁ files h₁
    obtain ⟨ds2, hq2⟩ := create_files_flat_eq e size st₂ files h₂
    rw [show outFS (create_files_flat e size st₁) (flatCreatePath name) =
      applyWrites st₁.fs (mkWrites e flatCreatePath size 0 files) (flatCreatePath name)
      by rw [hq1]; rfl]
    rw [show outFS (create_files_flat e size st₂) (flatCreatePath name) =
      applyWrites st₂.fs (mkWrites e flatCreatePath size 0 files) (flatCreatePath name)
      by rw [hq2]; rfl]
    exact applyWrites_at_written st₁.fs st₂.fs _ _
      (mem_mkWrites e flatCreatePath size files 0 name hname)
  · intro name hname
    obtain ⟨ds1, hq1⟩ := create_files_two_level_eq e size st₁ files h₁
    obtain ⟨ds2, hq2⟩ := create_files_two_level_eq e size st₂ files h₂
    rw [show outFS (create_files_two_level e size st₁) (twoLevelCreatePath name) =
      applyWrites st₁.fs (mkWrites e twoLevelCreatePath size 0 files) (twoLevelCreatePath name)
      by rw [hq1]; rfl]
    rw [show outFS (create_files_two_level e size st₂) (twoLevelCreatePath name) =
      applyWrites st₂.fs (mkWrites e twoLevelCreatePath size 0 files) (twoLevelCreatePath name)
      by rw [hq2]; rfl]
    exact applyWrites_at_written st₁.fs st₂.fs _ _
      (mem_mkWrites e twoLevelCreatePath size files 0 name hname)
  · intro name hname
    obtain ⟨ds1, hq1⟩ := create_files_four_level_eq e size st₁ files h₁ hlen3
    obtain ⟨ds2, hq2⟩ := create_files_four_level_eq e size st₂ files h₂ hlen3
    rw [show outFS (create_files_four_level e size st₁) (fourLevelLocOf name) =
      applyWrites st₁.fs (mkWrites e fourLevelLocOf size 0 files) (fourLevelLocOf name)
      by rw [hq1]; rfl]
    rw [show outFS (create_files_four_level e size st₂) (fourLevelLocOf name) =
      applyWrites st₂.fs (mkWrites e fourLevelLocOf size 0 files) (fourLevelLocOf name)
      by rw [hq2]; rfl]
    exact applyWrites_at_written st₁.fs st₂.fs _ _
      (mem_mkWrites e fourLevelLocOf size files 0 name hname)
  · obtain ⟨ds1, hq1⟩ := create_files_memmap_eq e size st₁ files h₁
    obtain ⟨ds2, hq2⟩ := create_files_memmap_eq e size st₂ files h₂
    rw [show outFS (create_files_memmap e size st₁) "cache/memmap/arr.npy" =
      some (.floats (memmapBlock e size files.length)) by rw [hq1]; simp [outFS, fsStore]]
    rw [show outFS (create_files_memmap e size st₂) "cache/memmap/arr.npy" =
      some (.floats (memmapBlock e size files.length)) by rw [hq2]; simp [outFS, fsStore]]
    simp

/-- Witness for C5: the same seeded environment on two different
initial filesystems (one holding junk at the record location) leaves
identical flat-layout and memmap content. -/
theorem C5_witness :
    stF.fs "cache/filelist.npy" = some (.strs ["abc"]) ∧
    stF2.fs "cache/filelist.npy" = some (.strs ["abc"]) ∧
    (∀ n ∈ ["abc"], 3 ≤ n.data.length) ∧
    (outFS (create_files_flat e0 1 stF) (flatCreatePath "abc") =
       outFS (create_files_flat e0 1 stF2) (flatCreatePath "abc") ∧
     (outFS (create_files_flat e0 1 stF) (flatCreatePath "abc")).isSome) ∧
    (outFS (create_files_memmap e0 1 stF) "cache/memmap/arr.npy" =
       outFS (create_files_memmap e0 1 stF2) "cache/memmap/arr.npy" ∧
     (outFS (create_files_memmap e0 1 stF) "cache/memmap/arr.npy").isSome) := by
  have h := C5_deterministic_create e0 1 stF stF2 ["abc"] rfl rfl (by decide)
  exact ⟨rfl, rfl, by decide, h.1 "abc" (List.mem_cons_self _ _), h.2.2.2⟩

/-! ### C4 -/

/-- C4: in the four-level layout, create and test always compute the
same storage location, and for every identifier with at least three
characters that location nests the artifact under three
single-character directory levels taken from the reversed tail of the
identifier: level 1 is the last character, level 2 the second-to-last,
level 3 the third-to-last. -/
theorem C4_four_level_placement (name : String) (h : 3 ≤ name.data.length) :
    fourLevelCreatePath name = fourLevelTestPath name ∧
    ∃ c1 c2 c3 t, name.data.reverse = c1 :: c2 :: c3 :: t ∧
      fourLevelCreatePath name =
        some ("cache/4level/" ++ String.mk [c1] ++ "/" ++ String.mk [c2] ++ "/" ++
          String.mk [c3] ++ "/" ++ name ++ ".npy") ∧
      fourLevelTestPath name =
        some ("cache/4level/" ++ String.mk [c1] ++ "/" ++ String.mk [c2] ++ "/" ++
          String.mk [c3] ++ "/" ++ name ++ ".npy") := by
  refine ⟨rfl, ?_⟩
  rcases hr : name.data.reverse with _ | ⟨c1, _ | ⟨c2, _ | ⟨c3, t⟩⟩⟩
  · have hlen := congrArg List.length hr
    rw [List.length_reverse] at hlen
    simp only [List.length_nil, List.length_cons] at hlen
    omega
  · have hlen := congrArg List.length hr
    rw [List.length_reverse] at hlen
    simp only [List.length_nil, List.length_cons] at hlen
    omega
  · have hlen := congrArg List.length hr
    rw [List.length_reverse] at hlen
    simp only [List.length_nil, List.length_cons] at hlen
    omega
  · have hp1 : pyNegChar name 1 = some c1 := by
      rw [pyNegChar, if_pos ⟨by omega, by omega⟩]
      rw [show name.data.length - 1 = name.data.length - 1 - 0 by omega]
      rw [← List.getElem?_reverse (by omega), hr]
      simp
    have hp2 : pyNegChar name 2 = some c2 := by
      rw [pyNegChar, if_pos ⟨by omega, by omega⟩]
      rw [show name.data.length - 2 = name.data.length - 1 - 1 by omega]
      rw [← List.getElem?_reverse (by omega), hr]
      simp
    have hp3 : pyNegChar name 3 = some c3 := by
      rw [pyNegChar, if_pos ⟨by omega, by omega⟩]
      rw [show name.data.length - 3 = name.data.length - 1 - 2 by omega]
      rw [← List.getElem?_reverse (by omega), hr]
      simp
    refine ⟨c1, c2, c3, t, rfl, ?_, ?_⟩
    · rw [fourLevelCreatePath, hp1, hp2, hp3]
    · rw [fourLevelTestPath, hp1, hp2, hp3]

/-- Witness for C4 at the identifier wxyz: level 1 is z, level 2 is y,
level 3 is x. -/
theorem C4_witness :
    3 ≤ ("wxyz" : String).data.length ∧
    fourLevelCreatePath "wxyz" = fourLevelTestPath "wxyz" ∧
    ∃ c1 c2 c3 t, ("wxyz" : String).data.reverse = c1 :: c2 :: c3 :: t ∧
      fourLevelCreatePath "wxyz" =
        some ("cache/4level/" ++ String.mk [c1] ++ "/" ++ String.mk [c2] ++ "/" ++
          String.mk [c3] ++ "/" ++ "wxyz" ++ ".npy") ∧
      fourLevelTestPath "wxyz" =
        some ("cache/4level/" ++ String.mk [c1] ++ "/" ++ String.mk [c2] ++ "/" ++
          String.mk [c3] ++ "/" ++ "wxyz" ++ ".npy") :=
  ⟨by decide, (C4_four_level_placement "wxyz" (by decide)).1,
    (C4_four_level_placement "wxyz" (by decide)).2⟩

/-! ### C2 -/

theorem applyWrites_mkWrites_out (e : Env) (f : String → String) (size : Nat)
    (fs : FS) (files : List String) (k : Nat) (hu : UnitStream e.u)
    (hsize : 0 < size) (name : String) (hname : name ∈ files) :
    ∃ v, applyWrites fs (mkWrites e f size k files) (f name) = some (.floats v) ∧
      10 ≤ v.length ∧ v.length < 10 + 5 * size := by
  obtain ⟨v₀, hv₀⟩ := mem_mkWrites e f size files k name hname
  obtain ⟨w, hw⟩ := Option.isSome_iff_exists.mp (lastWrite_isSome_of_mem hv₀)
  have hb := mkWrites_length_bounds e f size hu hsize files k (f name, w)
    (lastWrite_mem hw)
  refine ⟨w, ?_, hb.1, hb.2⟩
  rw [applyWrites_apply, hw]

theorem memRow_block (e : Env) (size n i : Nat) (hi : i < n) :
    memRow (memmapBlock e size n) size i = memmapRowContent e size i := by
  have hL : ∀ r ∈ (List.range n).map (memmapRowContent e size), r.length = size := by
    intro r hr
    obtain ⟨j, _, rfl⟩ := List.mem_map.mp hr
    exact memmapRowContent_length e size j
  have hi' : i < ((List.range n).map (memmapRowContent e size)).length := by
    simpa using hi
  rw [memRow, memmapBlock, flatten_row size _ i hi' hL, List.getElem_map,
    List.getElem_range]

theorem npMemmapRead_block (e : Env) (size n : Nat) (fs : FS) :
    npMemmapRead (fsStore fs "cache/memmap/arr.npy" (.floats (memmapBlock e size n)))
      "cache/memmap/arr.npy" n size = .ok (memmapBlock e size n) := by
  rw [npMemmapRead]
  have hlook : fsStore fs "cache/memmap/arr.npy" (.floats (memmapBlock e size n))
      "cache/memmap/arr.npy" = some (.floats (memmapBlock e size n)) := by
    simp [fsStore]
  rw [hlook]
  show (if (memmapBlock e size n).length < n * size then
      (Except.error Err.ShapeMismatch : Except Err (List Rat))
    else Except.ok (List.take (n * size) (memmapBlock e size n))) =
    Except.ok (memmapBlock e size n)
  rw [if_neg (by rw [memmapBlock_length]; omega)]
  rw [List.take_of_length_le (by rw [memmapBlock_length])]

/-- C2: for every identifier in the persisted set, after create the
read side resolves the identifier to exactly the location create wrote
(the test path formulas equal the create path formulas for the three
variable-length layouts, and the memmap row index is the position in
the set), and the content found there is a float array whose length
lies in [10, 10 + 5 * SIZE) for the variable-length layouts and is
exactly SIZE for every memmap row. -/
theorem C2_read_write_symmetry (e : Env) (size : Nat) (st : St)
    (files : List String) (hu : UnitStream e.u) (hsize : 0 < size)
    (hfl : st.fs "cache/filelist.npy" = some (.strs files))
    (hlen3 : ∀ n ∈ files, 3 ≤ n.data.length) :
    (∀ name ∈ files,
      flatTestPath name = flatCreatePath name ∧
      ∃ v, outFS (create_files_flat e size st) (flatTestPath name) =
          some (.floats v) ∧ 10 ≤ v.length ∧ v.length < 10 + 5 * size) ∧
    (∀ name ∈ files,
      twoLevelTestPath name = twoLevelCreatePath name ∧
      ∃ v, outFS (create_files_two_level e size st) (twoLevelTestPath name) =
          some (.floats v) ∧ 10 ≤ v.length ∧ v.length < 10 + 5 * size) ∧
    (∀ name ∈ files,
      fourLevelTestPath name = fourLevelCreatePath name ∧
      ∃ v, outFS (create_files_four_level e size st) (fourLevelLocOf name) =
          some (.floats v) ∧ 10 ≤ v.length ∧ v.length < 10 + 5 * size) ∧
    (∃ stR tr, create_files_memmap e size st = .ok (stR, tr) ∧
      ∃ view, npMemmapRead stR.fs "cache/memmap/arr.npy" files.length size =
          .ok view ∧
        ∀ i, i < files.length →
          memRow view size i = memmapRowContent e size i ∧
          (memRow view size i).length = size) := by
  refine ⟨?_, ?_, ?_, ?_⟩
  · intro name hname
    obtain ⟨ds, hq⟩ := create_files_flat_eq e size st files hfl
    refine ⟨rfl, ?_⟩
    rw [show outFS (create_files_flat e size st) (flatTestPath name) =
      applyWrites st.fs (mkWrites e flatCreatePath size 0 files) (flatCreatePath name)
      by rw [hq]; rfl]
    exact applyWrites_mkWrites_out e flatCreatePath size st.fs files 0 hu hsize name hname
  · intro name hname
    obtain ⟨ds, hq⟩ := create_files_two_level_eq e size st files hfl
    refine ⟨rfl, ?_⟩
    rw [show outFS (create_files_two_level e size st) (twoLevelTestPath name) =
      applyWrites st.fs (mkWrites e twoLevelCreatePath size 0 files) (twoLevelCreatePath name)
      by rw [hq]; rfl]
    exact applyWrites_mkWrites_out e twoLevelCreatePath size st.fs files 0 hu hsize name hname
  · intro name hname
    obtain ⟨ds, hq⟩ := create_files_four_level_eq e size st files hfl hlen3
    refine ⟨rfl, ?_⟩
    rw [show outFS (create_files_four_level e size st) (fourLevelLocOf name) =
      applyWrites st.fs (mkWrites e fourLevelLocOf size 0 files) (fourLevelLocOf name)
      by rw [hq]; rfl]
    exact applyWrites_mkWrites_out e fourLevelLocOf size st.fs files 0 hu hsize name hname
  · obtain ⟨ds, hq⟩ := create_files_memmap_eq e size st files hfl
    refine ⟨_, _, hq, memmapBlock e size files.length, ?_, ?_⟩
    · exact npMemmapRead_block e size files.length st.fs
    · intro i hi
      refine ⟨memRow_block e size files.length i hi, ?_⟩
      rw [memRow_block e size files.length i hi]
      exact memmapRowContent_length e size i

/-- Witness for C2 at size 1 and a one-identifier filelist: the flat
artifact read back at the create location has length in [10, 15), and
the single memmap row has length exactly 1. -/
theorem C2_witness :
    UnitStream e0.u ∧ (0 : Nat) < 1 ∧
    stF.fs "cache/filelist.npy" = some (.strs ["abc"]) ∧
    (∀ n ∈ ["abc"], 3 ≤ n.data.length) ∧
    (flatTestPath "abc" = flatCreatePath "abc" ∧
      ∃ v, outFS (create_files_flat e0 1 stF) (flatTestPath "abc") =
          some (.floats v) ∧ 10 ≤ v.length ∧ v.length < 10 + 5 * 1) ∧
    (∃ stR tr, create_files_memmap e0 1 stF = .ok (stR, tr) ∧
      ∃ view, npMemmapRead stR.fs "cache/memmap/arr.npy"
          (["abc"] : List String).length 1 = .ok view ∧
        ∀ i, i < (["abc"] : List String).length →
          memRow view 1 i = memmapRowContent e0 1 i ∧
          (memRow view 1 i).length = 1) := by
  have h := C2_read_write_symmetry e0 1 stF ["abc"] e0_unit (by decide) rfl (by decide)
  exact ⟨e0_unit, by decide, rfl, by decide,
    h.1 "abc" (List.mem_cons_self _ _), h.2.2.2⟩

/-! ### C6 -/

theorem testVar_eq (e : Env) (pathOf : String → Option String)
    (f : String → String) (g : String → List Rat) (st : St) (files : List String)
    (hfl : st.fs "cache/filelist.npy" = some (.strs files))
    (hart : ∀ n ∈ files, pathOf n = some (f n) ∧ st.fs (f n) = some (.floats (g n)))
    (hne : files ≠ []) :
    ∃ m ms, (npShuffle e.rb files).map (fun n => npMean (g n)) = m :: ms ∧
      testVar e pathOf st =
        .ok ⟨npShuffle e.rb files, m :: ms, npMaxD m ms, npMean (m :: ms),
          npMinD m ms⟩ := by
  have hperm := npShuffle_perm e.rb files
  have hart' : ∀ n ∈ npShuffle e.rb files,
      pathOf n = some (f n) ∧ st.fs (f n) = some (.floats (g n)) :=
    fun n hn => hart n (hperm.mem_iff.mp hn)
  have hlm := loadMeans_eq st.fs pathOf f g (npShuffle e.rb files) hart'
  have hload : loadFilelist st = .ok files := by rw [loadFilelist, hfl]
  cases hm : (npShuffle e.rb files).map (fun n => npMean (g n)) with
  | nil =>
    exfalso
    have hz : (npShuffle e.rb files).length = 0 := by
      have := congrArg List.length hm
      simpa using this
    rw [hperm.length_eq] at hz
    exact hne (List.length_eq_zero.mp hz)
  | cons m ms =>
    rw [hm] at hlm
    exact ⟨m, ms, rfl, by simp only [testVar, hload, hlm]⟩

/-- What one variable-length test pass does when the filelist is
persisted, every artifact is present, and the set is nonempty. -/
theorem testVar_pass (e : Env) (pathOf : String → Option String)
    (f : String → String) (g : String → List Rat) (st : St) (files : List String)
    (hfl : st.fs "cache/filelist.npy" = some (.strs files))
    (hart : ∀ n ∈ files, pathOf n = some (f n) ∧ st.fs (f n) = some (.floats (g n)))
    (hne : files ≠ []) (hnd : files.Nodup) :
    ∃ r, testVar e pathOf st = .ok r ∧
      r.visited = npShuffle e.rb files ∧
      List.Perm r.visited files ∧
      (∀ name ∈ files, r.visited.count name = 1) ∧
      r.means = r.visited.map (fun n => npMean (g n)) ∧
      r.means.length = files.length ∧
      r.mx ∈ r.means ∧ (∀ m ∈ r.means, m ≤ r.mx) ∧
      r.av = r.means.sum / r.means.length ∧
      r.mn ∈ r.means ∧ (∀ m ∈ r.means, r.mn ≤ m) := by
  obtain ⟨m, ms, hm, heq⟩ := testVar_eq e pathOf f g st files hfl hart hne
  have hperm := npShuffle_perm e.rb files
  refine ⟨_, heq, rfl, hperm, ?_, hm.symm, ?_, npMaxD_mem m ms, le_npMaxD m ms,
    rfl, npMinD_mem m ms, npMinD_le m ms⟩
  · intro name hname
    rw [hperm.count_eq]
    exact List.count_eq_one_of_mem hnd hname
  · rw [← hm]
    rw [List.length_map, hperm.length_eq]

/-- What the memmap test pass does when the filelist is persisted, the
block has exactly the expected extent, and the set is nonempty. -/
theorem test_memmap_pass (e : Env) (size : Nat) (st : St) (files : List String)
    (block : List Rat)
    (hfl : st.fs "cache/filelist.npy" = some (.strs files))
    (hblock : st.fs "cache/memmap/arr.npy" = some (.floats block))
    (hbl : block.length = files.length * size) (hne : files ≠ []) :
    ∃ ro tr, test_memmap e size st = .ok (ro, tr) ∧
      ro.visited = npShuffle e.rb (List.range files.length) ∧
      List.Perm ro.visited (List.range files.length) ∧
      (∀ i ∈ List.range files.length, ro.visited.count i = 1) ∧
      ro.means = ro.visited.map (fun i => npMean (memRow block size i)) ∧
      ro.means.length = files.length ∧
      ro.mx ∈ ro.means ∧ (∀ m ∈ ro.means, m ≤ ro.mx) ∧
      ro.av = ro.means.sum / ro.means.length ∧
      ro.mn ∈ ro.means ∧ (∀ m ∈ ro.means, ro.mn ≤ m) ∧
      tr = .openR :: ro.visited.map MmOp.readRow := by
  have hload : loadFilelist st = .ok files := by rw [loadFilelist, hfl]
  have hread : npMemmapRead st.fs "cache/memmap/arr.npy" files.length size =
      .ok block := by
    rw [npMemmapRead, hblock]
    show (if block.length < files.length * size then
        (Except.error Err.ShapeMismatch : Except Err (List Rat))
      else Except.ok (List.take (files.length * size) block)) = Except.ok block
    rw [if_neg (by omega)]
    rw [List.take_of_length_le (le_of_eq hbl)]
  have hperm := npShuffle_perm e.rb (List.range files.length)
  cases hm : (npShuffle e.rb (List.range files.length)).map
      (fun i => npMean (memRow block size i)) with
  | nil =>
    exfalso
    have hz : (npShuffle e.rb (List.range files.length)).length = 0 := by
      have := congrArg List.length hm
      simpa using this
    rw [hperm.length_eq, List.length_range] at hz
    exact hne (List.length_eq_zero.mp hz)
  | cons m ms =>
    refine ⟨⟨npShuffle e.rb (List.range files.length), m :: ms, npMaxD m ms,
      npMean (m :: ms), npMinD m ms⟩, _, ?_, rfl, hperm, ?_, hm.symm, ?_,
      npMaxD_mem m ms, le_npMaxD m ms, rfl, npMinD_mem m ms, npMinD_le m ms, rfl⟩
    · simp only [test_memmap, hload, hread, hm]
    · intro i hi
      rw [hperm.count_eq]
      exact List.count_eq_one_of_mem (List.nodup_range files.length) hi
    · rw [← hm, List.length_map, hperm.length_eq, List.length_range]

/-- C6: a test pass over a nonempty persisted set of COUNT distinct
identifiers reseeds and visits exactly one seeded-shuffle permutation
of the identifier sequence (flat/two-level/four-level) or of the index
sequence 0..COUNT-1 (memmap), each record exactly once; it computes
one mean per visited record, collects exactly COUNT means, and reports
as maximum, arithmetic mean and minimum precisely the maximum, the sum
divided by COUNT, and the minimum of those COUNT means. -/
theorem C6_test_pass (e : Env) (size : Nat) (st : St) (files : List String)
    (gf g2 g4 : String → List Rat) (block : List Rat)
    (hfl : st.fs "cache/filelist.npy" = some (.strs files))
    (hne : files ≠ []) (hnd : files.Nodup)
    (hlen3 : ∀ n ∈ files, 3 ≤ n.data.length)
    (haf : ∀ n ∈ files, st.fs (flatTestPath n) = some (.floats (gf n)))
    (ha2 : ∀ n ∈ files, st.fs (twoLevelTestPath n) = some (.floats (g2 n)))
    (ha4 : ∀ n ∈ files, st.fs (fourLevelLocOf n) = some (.floats (g4 n)))
    (hblock : st.fs "cache/memmap/arr.npy" = some (.floats block))
    (hbl : block.length = files.length * size) :
    (∃ r, test_flat e size st = .ok r ∧
      r.visited = npShuffle e.rb files ∧ List.Perm r.visited files ∧
      (∀ name ∈ files, r.visited.count name = 1) ∧
      r.means = r.visited.map (fun n => npMean (gf n)) ∧
      r.means.length = files.length ∧
      r.mx ∈ r.means ∧ (∀ m ∈ r.means, m ≤ r.mx) ∧
      r.av = r.means.sum / r.means.length ∧
      r.mn ∈ r.means ∧ (∀ m ∈ r.means, r.mn ≤ m)) ∧
    (∃ r, test_two_level e size st = .ok r ∧
      r.visited = npShuffle e.rb files ∧ List.Perm r.visited files ∧
      (∀ name ∈ files, r.visited.count name = 1) ∧
      r.means = r.visited.map (fun n => npMean (g2 n)) ∧
      r.means.length = files.length ∧
      r.mx ∈ r.means ∧ (∀ m ∈ r.means, m ≤ r.mx) ∧
      r.av = r.means.sum / r.means.length ∧
      r.mn ∈ r.means ∧ (∀ m ∈ r.means, r.mn ≤ m)) ∧
    (∃ r, test_four_level e size st = .ok r ∧
      r.visited = npShuffle e.rb files ∧ List.Perm r.visited files ∧
      (∀ name ∈ files, r.visited.count name = 1) ∧
      r.means = r.visited.map (fun n => npMean (g4 n)) ∧
      r.means.length = files.length ∧
      r.mx ∈ r.means ∧ (∀ m ∈ r.means, m ≤ r.mx) ∧
      r.av = r.means.sum / r.means.length ∧
      r.mn ∈ r.means ∧ (∀ m ∈ r.means, r.mn ≤ m)) ∧
    (∃ ro tr, test_memmap e size st = .ok (ro, tr) ∧
      ro.visited = npShuffle e.rb (List.range files.length) ∧
      List.Perm ro.visited (List.range files.length) ∧
      (∀ i ∈ List.range files.length, ro.visited.count i = 1) ∧
      ro.means = ro.visited.map (fun i => npMean (memRow block size i)) ∧
      ro.means.length = files.length ∧
      ro.mx ∈ ro.means ∧ (∀ m ∈ ro.means, m ≤ ro.mx) ∧
      ro.av = ro.means.sum / ro.means.length ∧
      ro.mn ∈ ro.means ∧ (∀ m ∈ ro.means, ro.mn ≤ m)) := by
  refine ⟨?_, ?_, ?_, ?_⟩
  · exact testVar_pass e _ flatTestPath gf st files hfl
      (fun n hn => ⟨rfl, haf n hn⟩) hne hnd
  · exact testVar_pass e _ twoLevelTestPath g2 st files hfl
      (fun n hn => ⟨rfl, ha2 n hn⟩) hne hnd
  · exact testVar_pass e fourLevelTestPath fourLevelLocOf g4 st files hfl
      (fun n hn => ⟨fourLevelTestPath_of_len (hlen3 n hn), ha4 n hn⟩) hne hnd
  · obtain ⟨ro, tr, h⟩ := test_memmap_pass e size st files block hfl hblock hbl hne
    exact ⟨ro, tr, h.1, h.2.1, h.2.2.1, h.2.2.2.1, h.2.2.2.2.1, h.2.2.2.2.2.1,
      h.2.2.2.2.2.2.1, h.2.2.2.2.2.2.2.1, h.2.2.2.2.2.2.2.2.1,
      h.2.2.2.2.2.2.2.2.2.1, h.2.2.2.2.2.2.2.2.2.2.1⟩

/-- A state with two persisted identifiers and artifacts for all four
layouts (memmap block of shape (2, 1)). -/
def st6 : St := ⟨[],
  fsStore (fsStore (fsStore (fsStore (fsStore (fsStore (fsStore (fsStore
    (fun _ => none)
    "cache/flat/abc.npy" (.floats [1]))
    "cache/flat/abd.npy" (.floats [2]))
    "cache/2level/abc/abc.npy" (.floats [3]))
    "cache/2level/abd/abd.npy" (.floats [4]))
    "cache/4level/c/b/a/abc.npy" (.floats [5]))
    "cache/4level/d/b/a/abd.npy" (.floats [6]))
    "cache/memmap/arr.npy" (.floats [7, 9]))
    "cache/filelist.npy" (.strs ["abc", "abd"])⟩

/-- Flat-layout contents of st6, by identifier. -/
def gf6 : String → List Rat := fun n => if n = "abc" then [1] else [2]

/-- Two-level contents of st6, by identifier. -/
def g26 : String → List Rat := fun n => if n = "abc" then [3] else [4]

/-- Four-level contents of st6, by identifier. -/
def g46 : String → List Rat := fun n => if n = "abc" then [5] else [6]

/-- Witness for C6 on a two-identifier state: the flat pass and the
memmap pass visit a seeded-shuffle permutation, one mean per record,
and report max / mean / min over exactly those two means. -/
theorem C6_witness :
    st6.fs "cache/filelist.npy" = some (.strs ["abc", "abd"]) ∧
    (["abc", "abd"] : List String) ≠ [] ∧
    (["abc", "abd"] : List String).Nodup ∧
    (∀ n ∈ (["abc", "abd"] : List String),
      st6.fs (flatTestPath n) = some (.floats (gf6 n))) ∧
    st6.fs "cache/memmap/arr.npy" = some (.floats [7, 9]) ∧
    ([7, 9] : List Rat).length = (["abc", "abd"] : List String).length * 1 ∧
    (∃ r, test_flat e0 1 st6 = .ok r ∧
      r.visited = npShuffle e0.rb ["abc", "abd"] ∧
      List.Perm r.visited ["abc", "abd"] ∧
      (∀ name ∈ (["abc", "abd"] : List String), r.visited.count name = 1) ∧
      r.means = r.visited.map (fun n => npMean (gf6 n)) ∧
      r.means.length = (["abc", "abd"] : List String).length ∧
      r.mx ∈ r.means ∧ (∀ m ∈ r.means, m ≤ r.mx) ∧
      r.av = r.means.sum / r.means.length ∧
      r.mn ∈ r.means ∧ (∀ m ∈ r.means, r.mn ≤ m)) ∧
    (∃ ro tr, test_memmap e0 1 st6 = .ok (ro, tr) ∧
      ro.visited = npShuffle e0.rb (List.range (["abc", "abd"] : List String).length) ∧
      List.Perm ro.visited (List.range (["abc", "abd"] : List String).length) ∧
      (∀ i ∈ List.range (["abc", "abd"] : List String).length,
        ro.visited.count i = 1) ∧
      ro.means = ro.visited.map (fun i => npMean (memRow [7, 9] 1 i)) ∧
      ro.means.length = (["abc", "abd"] : List String).length ∧
      ro.mx ∈ ro.means ∧ (∀ m ∈ ro.means, m ≤ ro.mx) ∧
      ro.av = ro.means.sum / ro.means.length ∧
      ro.mn ∈ ro.means ∧ (∀ m ∈ ro.means, ro.mn ≤ m)) := by
  have h := C6_test_pass e0 1 st6 ["abc", "abd"] gf6 g26 g46 [7, 9]
    (by decide) (by decide) (by decide) (by decide) (by decide) (by decide)
    (by decide) (by decide) (by decide)
  exact ⟨by decide, by decide, by decide, by decide, by decide, by decide,
    h.1, h.2.2.2⟩

/-! ### C7 -/

/-- A state with one persisted identifier and a memmap block holding
two floats (so its actual extent disagrees with shape (1, 1)). -/
def stC : St := ⟨[],
  fsStore (fsStore (fun _ => none) "cache/memmap/arr.npy" (.floats [0, 0]))
    "cache/filelist.npy" (.strs ["abc"])⟩

/-- Counterexample to C7 as stated: the persisted block holds 2 floats
while the declared shape (COUNT, SIZE) = (1, 1) calls for 1, yet
test_memmap succeeds instead of failing with ShapeMismatch — numpy
only rejects a block that is too small for the declared shape, not one
that is too large. -/
theorem C7_counterexample :
    stC.fs "cache/filelist.npy" = some (.strs ["abc"]) ∧
    stC.fs "cache/memmap/arr.npy" = some (.floats [0, 0]) ∧
    ([0, 0] : List Rat).length ≠ (["abc"] : List String).length * 1 ∧
    (test_memmap e0 1 stC).isOk = true :=
  ⟨by decide, by decide, by decide, by decide⟩

/-- C7 amended: the memmap read reopens the block read-only at shape
(COUNT, SIZE) and fails with ShapeMismatch exactly when the stored
block holds fewer than COUNT * SIZE entries; whenever the block holds
at least COUNT * SIZE entries (and the set is nonempty) the read
succeeds, even if the actual extent differs from COUNT * SIZE — the
shape check is one-sided. -/
theorem C7_memmap_shape_check (e : Env) (size : Nat) (st : St)
    (files : List String) (block : List Rat)
    (hfl : st.fs "cache/filelist.npy" = some (.strs files))
    (hblock : st.fs "cache/memmap/arr.npy" = some (.floats block)) :
    (block.length < files.length * size →
      test_memmap e size st = .error .ShapeMismatch) ∧
    (files.length * size ≤ block.length → files ≠ [] →
      (test_memmap e size st).isOk = true) := by
  have hload : loadFilelist st = .ok files := by rw [loadFilelist, hfl]
  constructor
  · intro hlt
    have hread : npMemmapRead st.fs "cache/memmap/arr.npy" files.length size =
        .error .ShapeMismatch := by
      rw [npMemmapRead, hblock]
      show (if block.length < files.length * size then
          (Except.error Err.ShapeMismatch : Except Err (List Rat))
        else Except.ok (List.take (files.length * size) block)) =
        Except.error Err.ShapeMismatch
      rw [if_pos hlt]
    simp only [test_memmap, hload, hread]
  · intro hge hne
    have hread : npMemmapRead st.fs "cache/memmap/arr.npy" files.length size =
        .ok (block.take (files.length * size)) := by
      rw [npMemmapRead, hblock]
      show (if block.length < files.length * size then
          (Except.error Err.ShapeMismatch : Except Err (List Rat))
        else Except.ok (List.take (files.length * size) block)) =
        Except.ok (block.take (files.length * size))
      rw [if_neg (by omega)]
    have hperm := npShuffle_perm e.rb (List.range files.length)
    cases hm : (npShuffle e.rb (List.range files.length)).map
        (fun i => npMean (memRow (block.take (files.length * size)) size i)) with
    | nil =>
      exfalso
      have hz : (npShuffle e.rb (List.range files.length)).length = 0 := by
        have := congrArg List.length hm
        simpa using this
      rw [hperm.length_eq, List.length_range] at hz
      exact hne (List.length_eq_zero.mp hz)
    | cons m ms =>
      simp only [test_memmap, hload, hread, hm, Except.isOk]
      rfl

/-- Witness for C7 amended: with a block of 2 floats, shape (1, 3) is
rejected with ShapeMismatch (too small) and shape (1, 1) is accepted
(large enough). -/
theorem C7_witness :
    stC.fs "cache/filelist.npy" = some (.strs ["abc"]) ∧
    stC.fs "cache/memmap/arr.npy" = some (.floats [0, 0]) ∧
    ([0, 0] : List Rat).length < (["abc"] : List String).length * 3 ∧
    test_memmap e0 3 stC = .error .ShapeMismatch ∧
    (["abc"] : List String).length * 1 ≤ ([0, 0] : List Rat).length ∧
    (test_memmap e0 1 stC).isOk = true :=
  ⟨by decide, by decide, by decide,
    (C7_memmap_shape_check e0 3 stC ["abc"] [0, 0] (by decide) (by decide)).1
      (by decide),
    by decide,
    (C7_memmap_shape_check e0 1 stC ["abc"] [0, 0] (by decide) (by decide)).2
      (by decide) (by decide)⟩

/-! ### C8 -/

/-- Counterexample to C8 as stated: (a) with the unevaluable COUNT
string abc the run does fail, but only after the module-level mkdir
has already created the cache directory, so I/O precedes the abort;
(b) the COUNT string 2+3 is not a number in optional scientific
notation, yet init accepts it (eval computes 5) and persists five
identifiers instead of failing with InvalidArgument. -/
theorem C8_counterexample :
    pyEvalNum "abc" = none ∧
    errOf (pyMain e0 (.init "abc") st0).2 = some .InvalidArgument ∧
    st0.dirs = [] ∧
    "cache" ∈ (pyMain e0 (.init "abc") st0).1.dirs ∧
    pyEvalNum "2+3" = some 5 ∧
    resFS (pyMain e0 (.init "2+3") st0).2 "cache/filelist.npy" =
      some (.strs ["aaa", "aaaa", "aaaaa", "aaaaaa", "aaaaaaa"]) := by
  have h23 : pyEvalNum "2+3" =
      some ((digitsVal [lowerChar '2'] : Rat) + (digitsVal [lowerChar '3'] : Rat)) :=
    rfl
  have hval : ((digitsVal [lowerChar '2'] : Rat) +
      (digitsVal [lowerChar '3'] : Rat)) = 5 := by
    rw [show (digitsVal [lowerChar '2'] : Nat) = 2 from rfl,
      show (digitsVal [lowerChar '3'] : Nat) = 3 from rfl]
    norm_num
  have h5 : pyEvalNum "2+3" = some 5 := by rw [h23, hval]
  have htr : pyTrunc 5 = 5 := by
    rw [pyTrunc, if_pos (by norm_num)]
    norm_num
  have hmain : (pyMain e0 (.init "2+3") st0).2 =
      create_filelist e0 5 (mkdir st0 "cache") := by
    simp only [pyMain, dispatch, h5, htr]
  refine ⟨by decide, by decide, rfl, by decide, h5, ?_⟩
  rw [hmain]
  decide

/-- C8 amended: the cache directory is created at import time, before
COUNT is even examined, so a failing init run has already performed
that I/O; COUNT is then handed to eval — any expression the evaluator
accepts (numeric literals with optional scientific notation, but also
sums such as 2+3) yields a number that is truncated to an integer and
passed on, while a string the evaluator rejects aborts the dispatch
with InvalidArgument (after the mkdir). -/
theorem C8_init_behavior (e : Env) (st : St) (c : String) :
    (pyMain e (.init c) st).1 = mkdir st "cache" ∧
    (pyEvalNum c = none →
      (pyMain e (.init c) st).2 = .error .InvalidArgument) ∧
    (∀ q, pyEvalNum c = some q →
      (pyMain e (.init c) st).2 = create_filelist e (pyTrunc q) (mkdir st "cache")) := by
  refine ⟨rfl, ?_, ?_⟩
  · intro h
    simp only [pyMain, dispatch, h]
  · intro q h
    simp only [pyMain, dispatch, h]

/-- Witness for C8 amended: abc is rejected (after the mkdir), while
3e5 evaluates to 300000 and is passed to the identifier generator
truncated. -/
theorem C8_witness :
    (pyMain e0 (.init "abc") st0).1 = mkdir st0 "cache" ∧
    pyEvalNum "abc" = none ∧
    (pyMain e0 (.init "abc") st0).2 = .error .InvalidArgument ∧
    pyEvalNum "3e5" = some 300000 ∧
    (pyMain e0 (.init "3e5") st0).2 =
      create_filelist e0 (pyTrunc 300000) (mkdir st0 "cache") := by
  have h3e5 : pyEvalNum "3e5" =
      some ((digitsVal [lowerChar '3'] : Rat) * 10 ^ digitsVal [lowerChar '5']) :=
    rfl
  have hval : ((digitsVal [lowerChar '3'] : Rat) * 10 ^ digitsVal [lowerChar '5']) =
      300000 := by
    rw [show (digitsVal [lowerChar '3'] : Nat) = 3 from rfl,
      show digitsVal [lowerChar '5'] = 5 from rfl]
    norm_num
  have h300000 : pyEvalNum "3e5" = some 300000 := by rw [h3e5, hval]
  exact ⟨(C8_init_behavior e0 st0 "abc").1, by decide,
    (C8_init_behavior e0 st0 "abc").2.1 (by decide), h300000,
    (C8_init_behavior e0 st0 "3e5").2.2 300000 h300000⟩

/-! ### C9 -/

/-- No exit path of the memmap test ever records a close of the
mapping: the source contains no close (or del) of the memmap object. -/
theorem test_memmap_no_close (e : Env) (size : Nat) (st : St) :
    MmOp.close ∉ traceOfT (test_memmap e size st) := by
  rw [test_memmap]
  cases hload : loadFilelist st with
  | error err => simp [traceOfT]
  | ok files =>
    cases hread : npMemmapRead st.fs "cache/memmap/arr.npy" files.length size with
    | error err => simp [hread, traceOfT]
    | ok view =>
      cases hm : (npShuffle e.rb (List.range files.length)).map
          (fun i => npMean (memRow view size i)) with
      | nil => simp [hread, hm, traceOfT]
      | cons m ms => simp [hread, hm, traceOfT]

/-- Counterexample to C9 as stated: neither the memmap create path nor
the memmap read path ever closes the mapping — the create trace ends
at flush with no close, and the (successful) test trace has no close
either, so release is left to the interpreter, not performed by the
program on its exit paths. -/
theorem C9_counterexample :
    (create_files_memmap e0 1 stF).isOk = true ∧
    MmOp.close ∉ traceOfC (create_files_memmap e0 1 stF) ∧
    MmOp.flush ∈ traceOfC (create_files_memmap e0 1 stF) ∧
    (test_memmap e0 1 stC).isOk = true ∧
    MmOp.close ∉ traceOfT (test_memmap e0 1 stC) :=
  ⟨by decide, by decide, by decide, by decide, by decide⟩

/-- C9 amended: the create path opens the block for writing, writes
every row (row i for each i below COUNT), and explicitly flushes as
its final memmap operation before returning — but it never closes the
mapping, and no exit path of the test pass closes it either; release
of the handle is delegated to the runtime rather than performed by the
program. -/
theorem C9_memmap_lifecycle (e : Env) (size : Nat) (st : St)
    (files : List String)
    (hfl : st.fs "cache/filelist.npy" = some (.strs files)) :
    (∃ stR, create_files_memmap e size st =
      .ok (stR, MmOp.openW :: (List.range files.length).map MmOp.writeRow ++
        [MmOp.flush])) ∧
    (∀ i, i < files.length → MmOp.writeRow i ∈
      (MmOp.openW :: (List.range files.length).map MmOp.writeRow ++
        [MmOp.flush] : List MmOp)) ∧
    MmOp.close ∉ (MmOp.openW :: (List.range files.length).map MmOp.writeRow ++
      [MmOp.flush] : List MmOp) ∧
    MmOp.close ∉ traceOfT (test_memmap e size st) := by
  obtain ⟨ds, hq⟩ := create_files_memmap_eq e size st files hfl
  refine ⟨⟨_, hq⟩, ?_, ?_, test_memmap_no_close e size st⟩
  · intro i hi
    refine List.mem_cons_of_mem _ (List.mem_append_left _ ?_)
    exact List.mem_map.mpr ⟨i, List.mem_range.mpr hi, rfl⟩
  · intro hmem
    rcases List.mem_cons.mp hmem with h | h
    · exact MmOp.noConfusion h
    · rcases List.mem_append.mp h with h | h
      · obtain ⟨i, _, hi⟩ := List.mem_map.mp h
        exact MmOp.noConfusion hi
      · rcases List.mem_cons.mp h with h | h
        · exact MmOp.noConfusion h
        · simp at h

/-- Witness for C9 amended at a one-identifier state. -/
theorem C9_witness :
    stF.fs "cache/filelist.npy" = some (.strs ["abc"]) ∧
    (∃ stR, create_files_memmap e0 1 stF =
      .ok (stR, MmOp.openW :: (List.range (["abc"] : List String).length).map
        MmOp.writeRow ++ [MmOp.flush])) ∧
    MmOp.close ∉ (MmOp.openW ::
      (List.range (["abc"] : List String).length).map MmOp.writeRow ++
      [MmOp.flush] : List MmOp) ∧
    MmOp.close ∉ traceOfT (test_memmap e0 1 stF) := by
  have h := C9_memmap_lifecycle e0 1 stF ["abc"] (by decide)
  exact ⟨by decide, h.1, h.2.2.1, h.2.2.2⟩

end SFB

